import Mathlib

/-!
Verification development for the Flatpak payload source module
(`pyanaconda/modules/payloads/payload/flatpak/source.py`).

The Python module is shallowly embedded: pure helpers become Lean
functions over `String`/`List Char`; exceptions become `Except PyErr`;
the per-instance blob cache, the issued HTTP requests and the files
written to disk become an explicit `World` state that is threaded
through the stateful operations.  Library primitives used by the code
(`str.split`, `str.strip`, `int(...)`, `configparser`, `os.path.join`,
`urljoin`, `requests` status handling) are modelled on the fragment the
module exercises.
-/

set_option autoImplicit false

deriving instance DecidableEq for Except

namespace Flatpak

/-- The Python exceptions that the module can raise, collapsed to the
distinctions the code makes.  `noSourceError` is the module's own
`NoSourceError`; `httpError` stands for `requests.HTTPError` raised by
`raise_for_status`; the `configparser` error classes are kept separate
because only `NoSectionError` (and `KeyError`) are caught by
`_expand_refs`. -/
inductive PyErr where
  | runtimeError
  | keyError
  | valueError
  | noOptionError
  | parsingError
  | missingSectionHeaderError
  | duplicateSectionError
  | duplicateOptionError
  | noSourceError
  | httpError (status : Nat)
  | jsonDecodeError
  | assertionError
  deriving DecidableEq, Repr

/-! ## String primitives (models of the Python `str` methods used) -/

/-- Model of Python `str.isspace` characters relevant to `str.strip()`
(ASCII whitespace). -/
def pyIsSpace (c : Char) : Bool :=
  c = ' ' ∨ c = '\t' ∨ c = '\n' ∨ c = '\r' ∨ c = '\x0b' ∨ c = '\x0c'

/-- Model of Python `str.strip()` on a character list. -/
def pyStripChars (l : List Char) : List Char :=
  ((l.dropWhile pyIsSpace).reverse.dropWhile pyIsSpace).reverse

/-- Model of Python `str.strip()`. -/
def pyStrip (s : String) : String :=
  String.mk (pyStripChars s.data)

/-- Model of Python `str.lower()` on the ASCII letters (the fragment
`configparser.optionxform` needs for the option names used here). -/
def pyLowerChar (c : Char) : Char :=
  if 'A' ≤ c ∧ c ≤ 'Z' then Char.ofNat (c.toNat + 32) else c

/-- Model of Python `str.startswith`. -/
def pyStartsWith (s pre : String) : Bool :=
  pre.data.isPrefixOf s.data

/-- Model of Python `str.removeprefix`. -/
def pyRemoveStart (s pre : String) : String :=
  if pre.data.isPrefixOf s.data then String.mk (s.data.drop pre.data.length) else s

/-- Decidable string membership in a list, used for the `in` /
`not in` checks of the Python code. -/
def memStr (x : String) : List String → Bool
  | [] => false
  | y :: rest => if y = x then true else memStr x rest

/-- Assoc-list lookup: model of `dict.get` / `dict[...]` on the
string-keyed dictionaries of the module (label mappings, the blob
cache, parsed config sections). -/
def alookup {α : Type} : List (String × α) → String → Option α
  | [], _ => none
  | (k, v) :: rest, key => if k = key then some v else alookup rest key

/-- Assoc-list update: model of `d[k] = v` on a Python dict. -/
def aset {α : Type} : List (String × α) → String → α → List (String × α)
  | [], k, v => [(k, v)]
  | (k2, v2) :: rest, k, v =>
    if k2 = k then (k, v) :: rest else (k2, v2) :: aset rest k v

/-- Model of Python `str.split(sep)` for a one-character separator,
on character lists.  `""` splits to `[""]`, like in Python. -/
def splitChar (c : Char) : List Char → List (List Char)
  | [] => [[]]
  | x :: xs =>
    match splitChar c xs with
    | [] => [[]]
    | r :: rs => if x = c then [] :: r :: rs else (x :: r) :: rs

/-- Model of Python `s.split(c, 1)` restricted to its interesting
shape: `some (before, after)` when the separator occurs, `none`
otherwise. -/
def splitOnceChar (c : Char) : List Char → Option (List Char × List Char)
  | [] => none
  | x :: xs =>
    if x = c then some ([], xs)
    else (splitOnceChar c xs).map (fun p => (x :: p.1, p.2))

/-- Model of `sep.join(parts)` for a one-character separator. -/
def joinSep (c : Char) : List (List Char) → List Char
  | [] => []
  | [x] => x
  | x :: y :: rest => x ++ c :: joinSep c (y :: rest)

/-- Model of Python `int(s)` for a decimal string: strips whitespace,
allows one optional sign, then requires a nonempty digit run
(`None` models the `ValueError`). -/
def pyStrInt (s : String) : Option Int :=
  let t := pyStripChars s.data
  let signed : Int × List Char :=
    match t with
    | '-' :: cs => (-1, cs)
    | '+' :: cs => (1, cs)
    | cs => (1, cs)
  match signed with
  | (sign, digits) =>
    if digits = [] then none
    else if digits.all Char.isDigit then
      some (sign * (digits.foldl (fun acc c => acc * 10 + (c.toNat - 48)) 0 : Nat))
    else none

/-- Model of `os.path.join(a, b)` for two components. -/
def os_path_join (a b : String) : String :=
  if a = "" then b
  else if b.data.head? = some '/' then b
  else if a.data.getLast? = some '/' then a ++ b
  else a ++ "/" ++ b

/-- Model of `urllib.parse.urljoin(base ++ "/", rel)` for the one case
the constructor uses: an absolute base URL with a `"/"` appended,
joined with a bare relative path, which concatenates them. -/
def url_join_relative (base rel : String) : String :=
  base ++ rel

/-! ## Reference canonicalization (`_canonicalize_flatpak_ref`) -/

/-- `_canonicalize_flatpak_ref`: split off a collection ID at the first
`:`, split the rest on `/`, require exactly 4 segments, and fill an
empty architecture segment (index 2) with the machine architecture.
The `RuntimeError("Can't parse reference")` becomes
`PyErr.runtimeError`. -/
def canonicalize_flatpak_ref (arch : String) (r : String) :
    Except PyErr (Option String × String) :=
  let split : Option String × List Char :=
    match splitOnceChar ':' r.data with
    | some (c, rest) => (some (String.mk c), rest)
    | none => (none, r.data)
  let parts := splitChar '/' split.2
  if parts.length = 4 then
    let parts := if parts.getD 2 [] = [] then parts.set 2 arch.data else parts
    .ok (split.1, String.mk (joinSep '/' parts))
  else
    .error .runtimeError

/-! ## `configparser` model

`_expand_refs` feeds an image's `org.flatpak.metadata` label into
`ConfigParser(interpolation=None).read_string` and then calls
`cp.get('Application', 'Runtime')`.  The parser below models the
fragment of `configparser` this exercises: blank lines and full-line
`#`/`;` comments are skipped, indented lines continue the previous
option value (joined by a newline), `[name]` opens a section, and
`key = value` / `key: value` set an option (option names lowercased by
`optionxform`, values stripped).  A content line before any section
header raises `MissingSectionHeaderError`; a line with neither
delimiter raises `ParsingError`; duplicate sections or options raise
the strict-mode duplicate errors.  The `DEFAULT` section, inline
comments and blank lines inside a multi-line value are not modelled. -/

/-- Parser state: sections built so far (in order), the currently open
section, and the most recent option key (for continuation lines). -/
structure IniState where
  sections : List (String × List (String × String))
  current : Option String
  lastKey : Option String

/-- Add `(key, val)` to section `sec`. -/
def iniSetOption (sections : List (String × List (String × String)))
    (sec key val : String) : List (String × List (String × String)) :=
  sections.map (fun p => if p.1 = sec then (p.1, p.2 ++ [(key, val)]) else p)

/-- Append a continuation line to the value of `key` in section `sec`. -/
def iniAppendValue (sections : List (String × List (String × String)))
    (sec key extra : String) : List (String × List (String × String)) :=
  sections.map (fun p =>
    if p.1 = sec then
      (p.1, p.2.map (fun q => if q.1 = key then (q.1, q.2 ++ "\n" ++ extra) else q))
    else p)

/-- Recognize a `[name]` section-header line (the `SECTCRE` regex:
a nonempty run of non-`]` characters after `[`, up to the first `]`;
trailing characters are ignored). -/
def iniSectionName (l : List Char) : Option String :=
  match l with
  | '[' :: rest =>
    let seg := rest.takeWhile (fun c => ¬ (c = ']'))
    if seg = [] then none
    else if (rest.drop seg.length).head? = some ']' then some (String.mk seg)
    else none
  | _ => none

/-- Find the first `=` or `:` delimiter of an option line. -/
def iniFindDelim : List Char → Option (List Char × List Char)
  | [] => none
  | c :: rest =>
    if c = '=' ∨ c = ':' then some ([], rest)
    else (iniFindDelim rest).map (fun p => (c :: p.1, p.2))

/-- Handle a non-blank, non-comment, non-indented line that is not a
section header: an option assignment. -/
def iniOptionLine (st : IniState) (stripped : List Char) : Except PyErr IniState :=
  match st.current with
  | none => .error .missingSectionHeaderError
  | some sec =>
    match iniFindDelim stripped with
    | none => .error .parsingError
    | some (before, after) =>
      let key := String.mk ((pyStripChars before).map pyLowerChar)
      let val := String.mk (pyStripChars after)
      match alookup st.sections sec with
      | none => .error .parsingError
      | some opts =>
        if (alookup opts key).isSome then .error .duplicateOptionError
        else .ok { st with sections := iniSetOption st.sections sec key val,
                           lastKey := some key }

/-- Process one raw line of the config document. -/
def iniLine (st : IniState) (line : List Char) : Except PyErr IniState :=
  let stripped := pyStripChars line
  if stripped = [] then .ok st
  else if stripped.head? = some '#' ∨ stripped.head? = some ';' then .ok st
  else if (line.head?.map pyIsSpace).getD false then
    match st.current, st.lastKey with
    | some sec, some key =>
      .ok { st with sections := iniAppendValue st.sections sec key (String.mk stripped) }
    | _, _ => .error .parsingError
  else
    match iniSectionName stripped with
    | some name =>
      if (alookup st.sections name).isSome then .error .duplicateSectionError
      else .ok { sections := st.sections ++ [(name, [])], current := some name,
                 lastKey := none }
    | none => iniOptionLine st stripped

/-- Fold the line handler over the document's lines. -/
def iniLines : IniState → List (List Char) → Except PyErr IniState
  | st, [] => .ok st
  | st, l :: rest =>
    match iniLine st l with
    | .error e => .error e
    | .ok st2 => iniLines st2 rest

/-- `ConfigParser(interpolation=None).read_string`: returns the parsed
sections, or the `configparser` error the Python call raises. -/
def read_string (s : String) :
    Except PyErr (List (String × List (String × String))) :=
  match iniLines ⟨[], none, none⟩ (splitChar '\n' s.data) with
  | .error e => .error e
  | .ok st => .ok st.sections

/-! ## Label mappings and the shared `FlatpakSource` logic -/

/-- A label mapping (`config_json["config"]["Labels"]` for static
images, `image["Labels"]` for registry images). -/
abbrev Labels := List (String × String)

/-- `SourceImage.ref`: the `org.flatpak.ref` label, or `None`. -/
def SourceImage.ref (labels : Labels) : Option String :=
  alookup labels "org.flatpak.ref"

/-- `int(labels[key])`: `KeyError` when the label is absent,
`ValueError` when it does not parse as an integer. -/
def label_int (labels : Labels) (key : String) : Except PyErr Int :=
  match alookup labels key with
  | none => .error .keyError
  | some s =>
    match pyStrInt s with
    | none => .error .valueError
    | some n => .ok n

/-- `SourceImage.download_size` (the label-declared figure, used by
registry images). -/
def SourceImage.download_size (labels : Labels) : Except PyErr Int :=
  label_int labels "org.flatpak.download-size"

/-- `SourceImage.installed_size`. -/
def SourceImage.installed_size (labels : Labels) : Except PyErr Int :=
  label_int labels "org.flatpak.installed-size"

/-- The metadata inspection done per image inside `_expand_refs`:
no `org.flatpak.metadata` label means no runtime; a `read_string`
failure propagates; a missing `Application` section raises
`NoSectionError`, which the `except (NoSectionError, KeyError)` clause
turns into "no runtime"; a present section without a `Runtime` option
raises `NoOptionError`, which that clause does NOT catch
(`ConfigParser.get` raises `NoOptionError`, not `KeyError`). -/
def FlatpakSource.image_runtime (labels : Labels) : Except PyErr (Option String) :=
  match alookup labels "org.flatpak.metadata" with
  | none => .ok none
  | some metadata =>
    match read_string metadata with
    | .error e => .error e
    | .ok sections =>
      match alookup sections "Application" with
      | none => .ok none
      | some opts =>
        match alookup opts "runtime" with
        | none => .error .noOptionError
        | some v => .ok (some v)

/-- The first loop of `_expand_refs`: canonicalize every requested
reference, dropping the collection IDs. -/
def FlatpakSource.canon_refs (arch : String) : List String → Except PyErr (List String)
  | [] => .ok []
  | r :: rest =>
    match canonicalize_flatpak_ref arch r with
    | .error e => .error e
    | .ok (_, ref) =>
      match FlatpakSource.canon_refs arch rest with
      | .error e => .error e
      | .ok others => .ok (ref :: others)

/-- One iteration of the image loop of `_expand_refs`: an image whose
`ref` is in the accumulated list may append `"runtime/" ++ runtime`
when its metadata declares a nonempty `Application.Runtime` not yet in
the list. -/
def FlatpakSource.expand_step (acc : List String) (labels : Labels) :
    Except PyErr (List String) :=
  match SourceImage.ref labels with
  | none => .ok acc
  | some r =>
    if memStr r acc then
      match FlatpakSource.image_runtime labels with
      | .error e => .error e
      | .ok none => .ok acc
      | .ok (some runtime) =>
        if runtime = "" then .ok acc
        else
          let runtime_ref := "runtime/" ++ runtime
          if memStr runtime_ref acc then .ok acc else .ok (acc ++ [runtime_ref])
    else .ok acc

/-- The image loop of `_expand_refs`, over the catalog in order. -/
def FlatpakSource.expand_loop (acc : List String) : List Labels → Except PyErr (List String)
  | [] => .ok acc
  | labels :: rest =>
    match FlatpakSource.expand_step acc labels with
    | .error e => .error e
    | .ok acc2 => FlatpakSource.expand_loop acc2 rest

/-- `FlatpakSource._expand_refs`: canonicalize the inputs, then make a
single pass over the catalog's label mappings. -/
def FlatpakSource.expand_refs (arch : String) (refs : List String)
    (images : List Labels) : Except PyErr (List String) :=
  match FlatpakSource.canon_refs arch refs with
  | .error e => .error e
  | .ok result => FlatpakSource.expand_loop result images

/-! ## Static source data model -/

/-- One `{digest, size}` member of a manifest's `layers` array. -/
structure LayerEntry where
  digest : String
  size : Int
  deriving DecidableEq, Repr

/-- The parsed manifest document: `config.digest` and `layers`. -/
structure ManifestDoc where
  configDigest : String
  layers : List LayerEntry
  deriving DecidableEq, Repr

/-- One member of the origin index's `manifests` array (`mediaType` is
read with `.get`, `digest` with indexing). -/
structure IndexEntry where
  mediaType : Option String
  digest : String
  deriving DecidableEq, Repr

/-- The JSON documents the static source decodes: the layout index, a
manifest, or a config (with its `config.Labels` mapping). -/
inductive JsonDoc where
  | indexDoc (manifests : List IndexEntry)
  | manifestDoc (m : ManifestDoc)
  | configDoc (labels : Labels)
  deriving DecidableEq, Repr

/-- `index_json.get("manifests", ())`: the other document shapes model
dicts without a `manifests` key, so the default applies. -/
def JsonDoc.manifests : JsonDoc → List IndexEntry
  | .indexDoc ms => ms
  | _ => []

/-- `manifest_json["config"]["digest"]` / `manifest_json["layers"]`:
a non-manifest document raises `KeyError`. -/
def JsonDoc.asManifest : JsonDoc → Except PyErr ManifestDoc
  | .manifestDoc m => .ok m
  | _ => .error .keyError

/-- `config_json["config"]["Labels"]`: a non-config document raises
`KeyError`. -/
def JsonDoc.asConfigLabels : JsonDoc → Except PyErr Labels
  | .configDoc ls => .ok ls
  | _ => .error .keyError

/-- The body of one HTTP response: its raw bytes together with the
result of `json.loads` on them (`none` when they are not JSON). -/
structure BlobVal where
  bytes : List Nat
  json : Option JsonDoc
  deriving DecidableEq, Repr

/-- An HTTP response: status code and body. -/
structure HttpResp where
  status : Nat
  content : BlobVal
  deriving Repr

/-- The remote (or local) repository behind the configured downloader:
a pure mapping from URL to response. -/
structure StaticOrigin where
  fetch : String → HttpResp

/-- What gets written to a staged file: raw blob bytes, the `index.json`
document (schema version 2 plus its `manifests` entries), or the
`oci-layout` version marker. -/
inductive FileContent where
  | fileBytes (bytes : List Nat)
  | indexFile (entries : List (String × String × Nat))
  | layoutFile
  deriving DecidableEq, Repr

/-- Explicit effect state threaded through the stateful operations. -/
structure World where
  cache : List (String × BlobVal)
  reqs : List String
  writes : List (String × FileContent)
  deriving Repr

/-- The fresh state of a new source instance. -/
def World.empty : World := ⟨[], [], []⟩

/-- `response.raise_for_status()` raises for the 4xx and 5xx ranges. -/
def statusBad (s : Nat) : Bool := 400 ≤ s ∧ s < 600

/-- `StaticSourceImage`: digest plus the parsed manifest document and
the label mapping of the parsed config document.  (The code reads the
labels lazily via `config_json["config"]["Labels"]`; they are decoded
when the catalog is built here, which moves the `KeyError` of a
malformed config document to load time but changes no result.) -/
structure StaticSourceImage where
  digest : String
  manifest : ManifestDoc
  labels : Labels
  deriving DecidableEq, Repr

/-- `StaticSourceImage.download_size`: the sum of the manifest layer
sizes, overriding the label-declared figure. -/
def StaticSourceImage.download_size (img : StaticSourceImage) : Int :=
  (img.manifest.layers.map LayerEntry.size).sum

/-- `RepoConfigurationData`: only the URL matters to this module. -/
structure RepoConfigurationData where
  url : String

/-- A `FlatpakStaticSource` holds `_url`, the repository URL joined
with the relative layout path. -/
structure FlatpakStaticSource where
  url : String

/-- The constructor: `_url = urljoin(repository_config.url + "/", relative_path)`. -/
def FlatpakStaticSource.make (cfg : RepoConfigurationData)
    (relative_path : String := "Flatpaks") : FlatpakStaticSource :=
  ⟨url_join_relative (cfg.url ++ "/") relative_path⟩

/-- `_is_local`: the joined URL starts with `file://`. -/
def FlatpakStaticSource.is_local (src : FlatpakStaticSource) : Bool :=
  pyStartsWith src.url "file://"

/-- `_blob_url` without its assertion: `<url>/blobs/sha256/<hex>`. -/
def blob_url (url digest : String) : String :=
  url ++ "/blobs/sha256/" ++ String.mk (digest.data.drop 7)

/-- The fetch path of `_get_blob` (reached when the cache holds no
entry, or only an empty one): assert the `sha256:` prefix, issue one
retrieval, raise on a 4xx/5xx status, and store and return the body. -/
def FlatpakStaticSource.get_blob_fetch (src : FlatpakStaticSource) (origin : StaticOrigin)
    (digest : String) (w : World) : Except PyErr BlobVal × World :=
  if pyStartsWith digest "sha256:" then
    let u := blob_url src.url digest
    let resp := origin.fetch u
    let w2 : World := { w with reqs := w.reqs ++ [u] }
    if statusBad resp.status then (.error (.httpError resp.status), w2)
    else (.ok resp.content, { w2 with cache := aset w2.cache digest resp.content })
  else (.error .assertionError, w)

/-- `_get_blob`: return the cached body when one is present and
nonempty (the code's `if result:` is a truthiness test, so an empty
cached body falls through to a fresh fetch). -/
def FlatpakStaticSource.get_blob (src : FlatpakStaticSource) (origin : StaticOrigin)
    (digest : String) (w : World) : Except PyErr BlobVal × World :=
  match alookup w.cache digest with
  | some b =>
    if b.bytes = [] then FlatpakStaticSource.get_blob_fetch src origin digest w
    else (.ok b, w)
  | none => FlatpakStaticSource.get_blob_fetch src origin digest w

/-- `_get_json`: `json.loads(self._get_blob(...))`. -/
def FlatpakStaticSource.get_json (src : FlatpakStaticSource) (origin : StaticOrigin)
    (digest : String) (w : World) : Except PyErr JsonDoc × World :=
  match FlatpakStaticSource.get_blob src origin digest w with
  | (.error e, w2) => (.error e, w2)
  | (.ok b, w2) =>
    match b.json with
    | none => (.error .jsonDecodeError, w2)
    | some doc => (.ok doc, w2)

/-- The OCI image-manifest media type the catalog loop filters on. -/
def manifest_media_type : String := "application/vnd.oci.image.manifest.v1+json"

/-- The manifest-entry loop of `_images`: for each index entry with the
manifest media type, fetch and decode the manifest and config documents
and build a `StaticSourceImage`. -/
def FlatpakStaticSource.images_from_entries (src : FlatpakStaticSource)
    (origin : StaticOrigin) :
    List IndexEntry → List StaticSourceImage → World →
    Except PyErr (List StaticSourceImage) × World
  | [], acc, w => (.ok acc, w)
  | e :: rest, acc, w =>
    if e.mediaType = some manifest_media_type then
      match FlatpakStaticSource.get_json src origin e.digest w with
      | (.error err, w2) => (.error err, w2)
      | (.ok mdoc, w2) =>
        match mdoc.asManifest with
        | .error err => (.error err, w2)
        | .ok m =>
          match FlatpakStaticSource.get_json src origin m.configDigest w2 with
          | (.error err, w3) => (.error err, w3)
          | (.ok cdoc, w3) =>
            match cdoc.asConfigLabels with
            | .error err => (.error err, w3)
            | .ok ls =>
              FlatpakStaticSource.images_from_entries src origin rest
                (acc ++ [⟨e.digest, m, ls⟩]) w3
    else FlatpakStaticSource.images_from_entries src origin rest acc w

/-- `_images` (the static catalog): fetch `<url>/index.json`; a 404
raises `NoSourceError`, any other 4xx/5xx raises the generic
`requests.HTTPError`; otherwise decode the index and process its
`manifests` entries in order. -/
def FlatpakStaticSource.images_compute (src : FlatpakStaticSource)
    (origin : StaticOrigin) (w : World) :
    Except PyErr (List StaticSourceImage) × World :=
  let url := src.url ++ "/index.json"
  let resp := origin.fetch url
  let w2 : World := { w with reqs := w.reqs ++ [url] }
  if resp.status = 404 then (.error .noSourceError, w2)
  else if statusBad resp.status then (.error (.httpError resp.status), w2)
  else
    match resp.content.json with
    | none => (.error .jsonDecodeError, w2)
    | some doc => FlatpakStaticSource.images_from_entries src origin doc.manifests [] w2

/-! ## Size calculation -/

/-- The image loop of `FlatpakStaticSource.calculate_size`: skip images
whose `ref` is not in the expanded list; otherwise add the manifest
layer-size sum to the download total (zero when the source is local)
and the label-declared installed size to the installed total. -/
def FlatpakStaticSource.size_loop (is_local : Bool) (expanded : List String) :
    List StaticSourceImage → Int → Int → Except PyErr (Int × Int)
  | [], dl, inst => .ok (dl, inst)
  | img :: rest, dl, inst =>
    match SourceImage.ref img.labels with
    | none => FlatpakStaticSource.size_loop is_local expanded rest dl inst
    | some r =>
      if memStr r expanded then
        match SourceImage.installed_size img.labels with
        | .error e => .error e
        | .ok i =>
          FlatpakStaticSource.size_loop is_local expanded rest
            (dl + (if is_local then 0 else img.download_size)) (inst + i)
      else FlatpakStaticSource.size_loop is_local expanded rest dl inst

/-- `FlatpakStaticSource.calculate_size` over the (memoized) catalog:
expand the references, then accumulate over the catalog in order. -/
def FlatpakStaticSource.calculate_size (src : FlatpakStaticSource) (arch : String)
    (images : List StaticSourceImage) (refs : List String) :
    Except PyErr (Int × Int) :=
  match FlatpakSource.expand_refs arch refs (images.map StaticSourceImage.labels) with
  | .error e => .error e
  | .ok expanded => FlatpakStaticSource.size_loop src.is_local expanded images 0 0

/-- The image loop of `FlatpakRegistrySource.calculate_size`: for each
catalog image in the expanded set, take the running maximum of the
label-declared download sizes and the running sum of installed sizes. -/
def FlatpakRegistrySource.size_loop (expanded : List String) :
    List Labels → Int → Int → Except PyErr (Int × Int)
  | [], maxDl, inst => .ok (maxDl, inst)
  | labels :: rest, maxDl, inst =>
    match SourceImage.ref labels with
    | none => FlatpakRegistrySource.size_loop expanded rest maxDl inst
    | some r =>
      if memStr r expanded then
        match SourceImage.download_size labels with
        | .error e => .error e
        | .ok d =>
          match SourceImage.installed_size labels with
          | .error e => .error e
          | .ok i => FlatpakRegistrySource.size_loop expanded rest (max maxDl d) (inst + i)
      else FlatpakRegistrySource.size_loop expanded rest maxDl inst

/-- `FlatpakRegistrySource.calculate_size` over the (memoized) catalog:
returns `(0, installed_size + max_download_size)`. -/
def FlatpakRegistrySource.calculate_size (arch : String) (images : List Labels)
    (refs : List String) : Except PyErr (Int × Int) :=
  match FlatpakSource.expand_refs arch refs images with
  | .error e => .error e
  | .ok expanded =>
    match FlatpakRegistrySource.size_loop expanded images 0 0 with
    | .error e => .error e
    | .ok (maxDl, inst) => .ok (0, inst + maxDl)

/-! ## Download staging (`FlatpakStaticSource.download`) -/

/-- `_download_blob` without streaming (manifest and config blobs):
assert the digest prefix, fetch through the cache, write the bytes to
`<dst>/blobs/sha256/<hex>`, return their length. -/
def FlatpakStaticSource.download_blob_nostream (src : FlatpakStaticSource)
    (origin : StaticOrigin) (dst digest : String) (w : World) :
    Except PyErr Nat × World :=
  if pyStartsWith digest "sha256:" then
    let path := os_path_join (os_path_join dst "blobs/sha256/")
      (String.mk (digest.data.drop 7))
    match FlatpakStaticSource.get_blob src origin digest w with
    | (.error e, w2) => (.error e, w2)
    | (.ok b, w2) =>
      (.ok b.bytes.length, { w2 with writes := w2.writes ++ [(path, .fileBytes b.bytes)] })
  else (.error .assertionError, w)

/-- `_download_blob` with `stream=True` (layer blobs): bypass the
cache, issue one streaming retrieval, raise on a bad status, write the
chunks, return the byte count. -/
def FlatpakStaticSource.download_blob_stream (src : FlatpakStaticSource)
    (origin : StaticOrigin) (dst digest : String) (w : World) :
    Except PyErr Nat × World :=
  if pyStartsWith digest "sha256:" then
    let path := os_path_join (os_path_join dst "blobs/sha256/")
      (String.mk (digest.data.drop 7))
    let u := blob_url src.url digest
    let resp := origin.fetch u
    let w2 : World := { w with reqs := w.reqs ++ [u] }
    if statusBad resp.status then (.error (.httpError resp.status), w2)
    else
      (.ok resp.content.bytes.length,
       { w2 with writes := w2.writes ++ [(path, .fileBytes resp.content.bytes)] })
  else (.error .assertionError, w)

/-- The per-image layer loop of `download`. -/
def FlatpakStaticSource.download_layers (src : FlatpakStaticSource)
    (origin : StaticOrigin) (dst : String) :
    List LayerEntry → World → Except PyErr Unit × World
  | [], w => (.ok (), w)
  | layer :: rest, w =>
    match FlatpakStaticSource.download_blob_stream src origin dst layer.digest w with
    | (.error e, w2) => (.error e, w2)
    | (.ok _, w2) => FlatpakStaticSource.download_layers src origin dst rest w2

/-- The image loop of `download`: for each catalog image whose `ref` is
in the expanded list, download its manifest and config blobs, append an
index entry `(media type, digest, manifest byte count)`, then stream
its layers. -/
def FlatpakStaticSource.download_images_loop (src : FlatpakStaticSource)
    (origin : StaticOrigin) (dst : String) (expanded : List String) :
    List StaticSourceImage → List (String × String × Nat) → World →
    Except PyErr (List (String × String × Nat)) × World
  | [], entries, w => (.ok entries, w)
  | img :: rest, entries, w =>
    match SourceImage.ref img.labels with
    | none => FlatpakStaticSource.download_images_loop src origin dst expanded rest entries w
    | some r =>
      if memStr r expanded then
        match FlatpakStaticSource.download_blob_nostream src origin dst img.digest w with
        | (.error e, w2) => (.error e, w2)
        | (.ok manifest_len, w2) =>
          match FlatpakStaticSource.download_blob_nostream src origin dst
              img.manifest.configDigest w2 with
          | (.error e, w3) => (.error e, w3)
          | (.ok _, w3) =>
            let entries2 := entries ++ [(manifest_media_type, img.digest, manifest_len)]
            match FlatpakStaticSource.download_layers src origin dst
                img.manifest.layers w3 with
            | (.error e, w4) => (.error e, w4)
            | (.ok _, w4) =>
              FlatpakStaticSource.download_images_loop src origin dst expanded rest
                entries2 w4
      else FlatpakStaticSource.download_images_loop src origin dst expanded rest entries w

/-- `FlatpakStaticSource.download` on a fresh instance: for a local
source, return `oci:` plus the URL with its `file://` prefix removed,
touching nothing; otherwise canonicalize, load the catalog, expand,
stage every included image, then write `index.json` (schema version 2,
one entry per processed image) and the `oci-layout` marker into
`<dst>/Flatpaks`, returning `oci:<dst>/Flatpaks`. -/
def FlatpakStaticSource.download (src : FlatpakStaticSource) (origin : StaticOrigin)
    (arch : String) (refs : List String) (dst : String) (w : World) :
    Except PyErr String × World :=
  if src.is_local then (.ok ("oci:" ++ pyRemoveStart src.url "file://"), w)
  else
    let collection_location := os_path_join dst "Flatpaks"
    match FlatpakSource.canon_refs arch refs with
    | .error e => (.error e, w)
    | .ok canon =>
      match FlatpakStaticSource.images_compute src origin w with
      | (.error e, w2) => (.error e, w2)
      | (.ok images, w2) =>
        match FlatpakSource.expand_loop canon (images.map StaticSourceImage.labels) with
        | .error e => (.error e, w2)
        | .ok expanded =>
          match FlatpakStaticSource.download_images_loop src origin dst expanded
              images [] w2 with
          | (.error e, w3) => (.error e, w3)
          | (.ok entries, w3) =>
            (.ok ("oci:" ++ collection_location),
             { w3 with writes := w3.writes ++
                 [(os_path_join collection_location "index.json", .indexFile entries),
                  (os_path_join collection_location "oci-layout", .layoutFile)] })

/-- `FlatpakRegistrySource.download`: always a no-op returning no
sideload location. -/
def FlatpakRegistrySource.download : Option String := none

/-! ## Helper definitions used by the theorem statements -/

/-- Whether a catalog image belongs to the expanded reference set:
it has a `ref` label and that reference is in the expanded list. -/
def image_included (expanded : List String) (labels : Labels) : Bool :=
  match SourceImage.ref labels with
  | none => false
  | some r => memStr r expanded

/-- Collect a per-image size (e.g. the label-declared installed size)
over a list of label mappings, propagating the first failure. -/
def sizes_of (f : Labels → Except PyErr Int) : List Labels → Except PyErr (List Int)
  | [] => .ok []
  | ls :: rest =>
    match f ls with
    | .error e => .error e
    | .ok i =>
      match sizes_of f rest with
      | .error e => .error e
      | .ok others => .ok (i :: others)

/-- Origin whose every blob is an empty `200 OK` body: exhibits the
truthiness gap of the `_get_blob` cache. -/
def emptyBlobOrigin : StaticOrigin :=
  ⟨fun _ => ⟨200, ⟨[], none⟩⟩⟩

/-- Origin whose every blob is a one-byte `200 OK` body. -/
def smallBlobOrigin : StaticOrigin :=
  ⟨fun _ => ⟨200, ⟨[7], none⟩⟩⟩

/-- Origin that answers every request with a 404. -/
def notFoundOrigin : StaticOrigin :=
  ⟨fun _ => ⟨404, ⟨[], none⟩⟩⟩

/-- Origin that answers every request with a 500. -/
def serverErrorOrigin : StaticOrigin :=
  ⟨fun _ => ⟨500, ⟨[], none⟩⟩⟩

/-- A tiny remote layout with one application image (`sha256:m1`,
config `sha256:c1`, one 5-byte layer `sha256:l1`), used to exercise the
download path end to end. -/
def tinyOrigin : StaticOrigin :=
  ⟨fun u =>
    if u = "http://h/Flatpaks/index.json" then
      ⟨200, ⟨[], some (.indexDoc [⟨some manifest_media_type, "sha256:m1"⟩])⟩⟩
    else if u = "http://h/Flatpaks/blobs/sha256/m1" then
      ⟨200, ⟨[1, 2, 3], some (.manifestDoc ⟨"sha256:c1", [⟨"sha256:l1", 5⟩]⟩)⟩⟩
    else if u = "http://h/Flatpaks/blobs/sha256/c1" then
      ⟨200, ⟨[9], some (.configDoc [("org.flatpak.ref", "app/A/x86_64/s"),
                                    ("org.flatpak.installed-size", "10")])⟩⟩
    else if u = "http://h/Flatpaks/blobs/sha256/l1" then
      ⟨200, ⟨[1, 1, 1, 1, 1], none⟩⟩
    else ⟨404, ⟨[], none⟩⟩⟩

/-- Concrete application image: two layers of 500 and 400 bytes,
label-declared download size 1000, installed size 5000, runtime
dependency `org.example.Platform/x86_64/1.0`. -/
def fooImage : StaticSourceImage :=
  ⟨"sha256:aaa", ⟨"sha256:ccc", [⟨"sha256:l1", 500⟩, ⟨"sha256:l2", 400⟩]⟩,
   [("org.flatpak.ref", "app/org.example.Foo/x86_64/stable"),
    ("org.flatpak.download-size", "1000"),
    ("org.flatpak.installed-size", "5000"),
    ("org.flatpak.metadata", "[Application]\nRuntime=org.example.Platform/x86_64/1.0")]⟩

/-- Concrete runtime image: no layers, installed size 2000, no
metadata label. -/
def platformImage : StaticSourceImage :=
  ⟨"sha256:bbb", ⟨"sha256:ddd", []⟩,
   [("org.flatpak.ref", "runtime/org.example.Platform/x86_64/1.0"),
    ("org.flatpak.installed-size", "2000")]⟩

/-! ## General lemmas -/

theorem memStr_iff (x : String) (l : List String) : memStr x l = true ↔ x ∈ l := by
  induction l with
  | nil => simp [memStr]
  | cons y rest ih =>
    simp only [memStr, List.mem_cons]
    by_cases h : y = x
    · simp [h]
    · have hne : ¬ x = y := fun hh => h hh.symm
      simp [h, hne, ih]

theorem memStr_eq_false (x : String) (l : List String) :
    memStr x l = false ↔ x ∉ l := by
  rw [← memStr_iff]
  cases memStr x l <;> simp

/-- A successful `expand_step` either leaves the list unchanged or
appends one runtime reference contributed by this image. -/
theorem expand_step_shape (acc : List String) (ls : Labels) (acc2 : List String)
    (h : FlatpakSource.expand_step acc ls = .ok acc2) :
    acc2 = acc ∨
    ∃ s rt, SourceImage.ref ls = some s ∧ s ∈ acc ∧
      FlatpakSource.image_runtime ls = .ok (some rt) ∧ rt ≠ "" ∧
      ("runtime/" ++ rt) ∉ acc ∧ acc2 = acc ++ ["runtime/" ++ rt] := by
  rcases href : SourceImage.ref ls with _ | r <;>
    simp only [FlatpakSource.expand_step, href] at h
  · exact Or.inl (Except.ok.inj h).symm
  · split at h
    · rename_i hmem
      split at h
      · cases h
      · exact Or.inl (Except.ok.inj h).symm
      · rename_i rt hrt
        split at h
        · exact Or.inl (Except.ok.inj h).symm
        · rename_i hempty
          split at h
          · exact Or.inl (Except.ok.inj h).symm
          · rename_i hnotin
            exact Or.inr ⟨r, rt, rfl, (memStr_iff _ _).mp hmem, hrt, hempty,
              (memStr_eq_false _ _).mp (by simpa using hnotin), (Except.ok.inj h).symm⟩
    · exact Or.inl (Except.ok.inj h).symm

/-- `expand_step` only appends. -/
theorem expand_step_sublist (acc : List String) (ls : Labels) (acc2 : List String)
    (h : FlatpakSource.expand_step acc ls = .ok acc2) :
    ∃ t, acc2 = acc ++ t := by
  rcases expand_step_shape acc ls acc2 h with h1 | ⟨_, rt, _, _, _, _, _, h2⟩
  · exact ⟨[], by simp [h1]⟩
  · exact ⟨["runtime/" ++ rt], h2⟩

/-- `expand_loop` only appends to its accumulator. -/
theorem expand_loop_append (imgs : List Labels) : ∀ acc res,
    FlatpakSource.expand_loop acc imgs = .ok res → ∃ t, res = acc ++ t := by
  induction imgs with
  | nil =>
    intro acc res h
    exact ⟨[], by simpa [FlatpakSource.expand_loop] using (Except.ok.inj h).symm⟩
  | cons ls rest ih =>
    intro acc res h
    unfold FlatpakSource.expand_loop at h
    rcases hstep : FlatpakSource.expand_step acc ls with e | acc2 <;> rw [hstep] at h
    · cases h
    · rcases expand_step_sublist acc ls acc2 hstep with ⟨t1, ht1⟩
      rcases ih acc2 res h with ⟨t2, ht2⟩
      exact ⟨t1 ++ t2, by simp [ht2, ht1]⟩

/-- Everything in the accumulator survives `expand_loop`. -/
theorem expand_loop_mem (imgs : List Labels) (acc res : List String) (x : String)
    (h : FlatpakSource.expand_loop acc imgs = .ok res) (hx : x ∈ acc) : x ∈ res := by
  rcases expand_loop_append imgs acc res h with ⟨t, ht⟩
  simp [ht, hx]

/-- If an image appended something the accumulator did not contain, the
step happened through its declared runtime. -/
theorem expand_step_new_mem (acc : List String) (ls : Labels) (acc2 : List String)
    (x : String) (h : FlatpakSource.expand_step acc ls = .ok acc2)
    (hx : x ∈ acc2) (hnx : x ∉ acc) :
    (∃ s, SourceImage.ref ls = some s ∧ s ∈ acc) ∧
    ∃ rt, FlatpakSource.image_runtime ls = .ok (some rt) ∧ x = "runtime/" ++ rt := by
  rcases expand_step_shape acc ls acc2 h with h1 | ⟨s, rt, h1, h2, h3, _, _, h6⟩
  · exact absurd (h1 ▸ hx) hnx
  · subst h6
    rcases List.mem_append.mp hx with hxa | hxr
    · exact absurd hxa hnx
    · exact ⟨⟨s, h1, h2⟩, ⟨rt, h3, (List.mem_singleton.mp hxr)⟩⟩

/-- Single-pass characterization of the image loop: every element of
the result was in the accumulator, or is the runtime reference of the
catalog image at some position `i` whose own `ref` was already present
after the loop had processed only the first `i` images. -/
theorem expand_loop_char (imgs : List Labels) : ∀ acc res,
    FlatpakSource.expand_loop acc imgs = .ok res → ∀ x ∈ res, x ∈ acc ∨
      ∃ i : Nat, ∃ hi : i < imgs.length, ∃ prev,
        FlatpakSource.expand_loop acc (imgs.take i) = .ok prev ∧
        (∃ s, SourceImage.ref (imgs.get ⟨i, hi⟩) = some s ∧ s ∈ prev) ∧
        ∃ rt, FlatpakSource.image_runtime (imgs.get ⟨i, hi⟩) = .ok (some rt) ∧
          x = "runtime/" ++ rt := by
  induction imgs with
  | nil =>
    intro acc res h x hx
    simp only [FlatpakSource.expand_loop] at h
    exact Or.inl (by rw [Except.ok.inj h]; exact hx)
  | cons ls rest ih =>
    intro acc res h x hx
    unfold FlatpakSource.expand_loop at h
    rcases hstep : FlatpakSource.expand_step acc ls with e | acc2 <;> rw [hstep] at h
    · cases h
    · rcases ih acc2 res h x hx with hx2 | ⟨j, hj, prev, hprev, hs, hrt⟩
      · by_cases hxa : x ∈ acc
        · exact Or.inl hxa
        · rcases expand_step_new_mem acc ls acc2 x hstep hx2 hxa with ⟨⟨s, hs1, hs2⟩, rt, hrt1, hrt2⟩
          refine Or.inr ⟨0, by simp, acc, by simp [FlatpakSource.expand_loop], ⟨s, ?_, hs2⟩,
            rt, ?_, hrt2⟩
          · simpa using hs1
          · simpa using hrt1
      · refine Or.inr ⟨j + 1, by simpa using hj, prev, ?_, ?_, ?_⟩
        · simp only [List.take_succ_cons]
          unfold FlatpakSource.expand_loop
          rw [hstep]
          exact hprev
        · simpa using hs
        · simpa using hrt

/-- An image of the catalog whose `ref` is in the accumulator and whose
metadata declares a nonempty runtime always leaves that runtime
reference in the final expansion. -/
theorem expand_loop_runtime_mem (imgs : List Labels) : ∀ acc res ls s rt,
    FlatpakSource.expand_loop acc imgs = .ok res → ls ∈ imgs →
    SourceImage.ref ls = some s → s ∈ acc →
    FlatpakSource.image_runtime ls = .ok (some rt) → rt ≠ "" →
    ("runtime/" ++ rt) ∈ res := by
  induction imgs with
  | nil =>
    intro acc res ls s rt _ hmem
    exact absurd hmem (List.not_mem_nil ls)
  | cons l rest ih =>
    intro acc res ls s rt h hmem href hsacc hrt hempty
    unfold FlatpakSource.expand_loop at h
    rcases hstep : FlatpakSource.expand_step acc l with e | acc2 <;> rw [hstep] at h
    · cases h
    · rcases expand_step_sublist acc l acc2 hstep with ⟨t, ht⟩
      rcases List.mem_cons.mp hmem with heq | hrest
      · subst heq
        have hin : ("runtime/" ++ rt) ∈ acc2 := by
          simp only [FlatpakSource.expand_step, href, (memStr_iff s acc).mpr hsacc,
            hrt, hempty] at hstep
          by_cases hcontains : memStr ("runtime/" ++ rt) acc = true
          · rw [if_pos hcontains] at hstep
            rw [← Except.ok.inj hstep]
            exact (memStr_iff _ _).mp hcontains
          · rw [if_neg hcontains] at hstep
            rw [← Except.ok.inj hstep]
            simp
        exact expand_loop_mem rest acc2 res _ h hin
      · exact ih acc2 res ls s rt h hrest href (ht ▸ List.mem_append_left t hsacc) hrt hempty

/-! ## Lemmas about the character-splitting primitives -/

theorem splitChar_no_sep (c : Char) (l : List Char) (h : c ∉ l) :
    splitChar c l = [l] := by
  induction l with
  | nil => rfl
  | cons x xs ih =>
    have hx : ¬ x = c := fun he => h (by simp [he])
    have hxs : c ∉ xs := fun hm => h (List.mem_cons_of_mem _ hm)
    simp [splitChar, ih hxs, hx]

theorem mem_splitChar (c : Char) (l : List Char) : ∀ seg ∈ splitChar c l, c ∉ seg := by
  induction l with
  | nil =>
    intro seg hseg
    simp only [splitChar, List.mem_singleton] at hseg
    simp [hseg]
  | cons x xs ih =>
    intro seg hseg
    rcases hsplit : splitChar c xs with _ | ⟨r, rs⟩
    · simp only [splitChar, hsplit, List.mem_singleton] at hseg
      simp [hseg]
    · have hhead : r ∈ splitChar c xs := by rw [hsplit]; exact List.mem_cons_self r rs
      by_cases hx : x = c
      · simp only [splitChar, hsplit, hx, if_pos] at hseg
        rcases List.mem_cons.mp hseg with h1 | h1
        · simp [h1]
        · exact ih seg (by rw [hsplit]; exact h1)
      · simp only [splitChar, hsplit, if_neg hx] at hseg
        rcases List.mem_cons.mp hseg with h1 | h1
        · subst h1
          intro hc
          rcases List.mem_cons.mp hc with h2 | h2
          · exact hx h2.symm
          · exact ih r hhead h2
        · exact ih seg (by rw [hsplit]; exact List.mem_cons_of_mem r h1)

/-- Splitting `x ++ c :: tail` where `x` is separator-free peels off
`x` as the first segment. -/
theorem splitChar_append_sep (c : Char) (x tail : List Char) (h : c ∉ x) :
    splitChar c (x ++ c :: tail) = x :: splitChar c tail := by
  induction x with
  | nil =>
    rcases h2 : splitChar c tail with _ | ⟨r, rs⟩
    · simp [splitChar, h2]
    · simp [splitChar, h2]
  | cons a x2 ih =>
    have ha : ¬ a = c := fun he => h (by simp [he])
    have hx2 : c ∉ x2 := fun hm => h (by simp [hm])
    rcases h2 : splitChar c (x2 ++ c :: tail) with _ | ⟨r, rs⟩
    · rw [ih hx2] at h2
      cases h2
    · have h3 := (ih hx2).symm.trans h2
      injection h3 with h4 h5
      simp only [List.cons_append, splitChar, List.append_eq, h2, if_neg ha]
      rw [← h4, ← h5]

/-- Splitting the separator-join of nonempty, separator-free parts
recovers the parts. -/
theorem splitChar_joinSep (c : Char) (parts : List (List Char)) (hne : parts ≠ [])
    (hfree : ∀ seg ∈ parts, c ∉ seg) : splitChar c (joinSep c parts) = parts := by
  induction parts with
  | nil => exact absurd rfl hne
  | cons x xs ih =>
    cases xs with
    | nil => simpa [joinSep] using splitChar_no_sep c x (hfree x (by simp))
    | cons y ys =>
      have hj : joinSep c (x :: y :: ys) = x ++ c :: joinSep c (y :: ys) := rfl
      rw [hj, splitChar_append_sep c x _ (hfree x (by simp))]
      rw [ih (by simp) (fun seg hseg => hfree seg (List.mem_cons_of_mem x hseg))]

theorem splitOnceChar_none (c : Char) (l : List Char) (h : c ∉ l) :
    splitOnceChar c l = none := by
  induction l with
  | nil => rfl
  | cons x xs ih =>
    have hx : ¬ x = c := fun he => h (by simp [he])
    have hxs : c ∉ xs := fun hm => h (List.mem_cons_of_mem _ hm)
    simp [splitOnceChar, hx, ih hxs]

theorem mem_set_cases {α : Type} :
    ∀ (l : List α) (n : Nat) (b x : α), x ∈ l.set n b → x ∈ l ∨ x = b
  | [], _, _, x, h => absurd h (List.not_mem_nil x)
  | a :: l, 0, b, x, h => by
    simp only [List.set] at h
    rcases List.mem_cons.mp h with h1 | h1
    · exact Or.inr h1
    · exact Or.inl (List.mem_cons_of_mem a h1)
  | a :: l, n + 1, b, x, h => by
    simp only [List.set] at h
    rcases List.mem_cons.mp h with h1 | h1
    · exact Or.inl (h1 ▸ List.mem_cons_self a l)
    · rcases mem_set_cases l n b x h1 with h2 | h2
      · exact Or.inl (List.mem_cons_of_mem a h2)
      · exact Or.inr h2

theorem getD_set_self {α : Type} :
    ∀ (l : List α) (n : Nat) (b d : α), n < l.length → (l.set n b).getD n d = b
  | [], n, _, _, h => absurd h (by simp)
  | _ :: _, 0, _, _, _ => rfl
  | _ :: l, n + 1, b, d, h => getD_set_self l n b d (by simpa using h)

theorem set_getD_self {α : Type} :
    ∀ (l : List α) (n : Nat) (d : α), n < l.length → l.set n (l.getD n d) = l
  | [], n, _, h => absurd h (by simp)
  | _ :: _, 0, _, _ => rfl
  | a :: l, n + 1, d, h => by
    simp only [List.set, List.cons.injEq, true_and]
    exact set_getD_self l n d (by simpa using h)

/-- Helper for `canon_ok_path`: characterization of the body of
`canonicalize_flatpak_ref` once the collection split has been
resolved (`X` is the character list of the 4-segment part). -/
theorem canon_reduced (arch : String) (X : List Char) (copt c : Option String) (p : String)
    (h : (if (splitChar '/' X).length = 4 then
            (.ok (copt, String.mk (joinSep '/'
              (if (splitChar '/' X).getD 2 [] = [] then (splitChar '/' X).set 2 arch.data
               else splitChar '/' X))) : Except PyErr (Option String × String))
          else .error .runtimeError) = .ok (c, p)) :
    ∃ parts : List (List Char), parts.length = 4 ∧ p.data = joinSep '/' parts ∧
      (∀ seg ∈ parts, '/' ∉ seg ∨ seg = arch.data) ∧
      (parts.getD 2 [] = [] → arch.data = []) := by
  split at h
  · rename_i hlen
    have hp : p = String.mk (joinSep '/'
        (if (splitChar '/' X).getD 2 [] = [] then (splitChar '/' X).set 2 arch.data
         else splitChar '/' X)) :=
      (congrArg Prod.snd (Except.ok.inj h)).symm
    by_cases hg : (splitChar '/' X).getD 2 [] = []
    · refine ⟨(splitChar '/' X).set 2 arch.data, by simp [hlen], ?_, ?_, ?_⟩
      · rw [hp, if_pos hg]
      · intro seg hseg
        rcases mem_set_cases _ _ _ _ hseg with h3 | h3
        · exact Or.inl (mem_splitChar '/' X seg h3)
        · exact Or.inr h3
      · intro hg2
        rw [getD_set_self _ 2 arch.data [] (by rw [hlen]; omega)] at hg2
        exact hg2
    · refine ⟨splitChar '/' X, hlen, ?_, ?_, ?_⟩
      · rw [hp, if_neg hg]
      · intro seg hseg
        exact Or.inl (mem_splitChar '/' X seg hseg)
      · intro hg2
        exact absurd hg2 hg
  · cases h

/-- Structure of a successful canonicalization: the returned path is
the slash-join of four segments, each of which is slash-free or equal
to the substituted architecture, and the architecture segment is empty
only when the architecture string itself is empty. -/
theorem canon_ok_path (arch r : String) (c : Option String) (p : String)
    (h : canonicalize_flatpak_ref arch r = .ok (c, p)) :
    ∃ parts : List (List Char), parts.length = 4 ∧ p.data = joinSep '/' parts ∧
      (∀ seg ∈ parts, '/' ∉ seg ∨ seg = arch.data) ∧
      (parts.getD 2 [] = [] → arch.data = []) := by
  rcases hso : splitOnceChar ':' r.data with _ | ⟨cc, rest⟩ <;>
    simp only [canonicalize_flatpak_ref, hso] at h
  · exact canon_reduced arch r.data none c p h
  · exact canon_reduced arch rest (some (String.mk cc)) c p h

/-! ## Claim theorems -/

/-- C3 (counterexample): dependency expansion is not single-level for
every catalog order.  On a catalog whose runtime image appears after
the application that pulls it in, and itself declares a runtime, the
expanded set contains `runtime/S/x/1` even though no catalog image
whose `ref` is among the canonicalized inputs declares that runtime
reference — contradicting the claim that only directly-requested
images contribute. -/
theorem claim_c3_counterexample :
    FlatpakSource.expand_refs "x86_64" ["app/A/x/1"]
      [[("org.flatpak.ref", "app/A/x/1"),
        ("org.flatpak.metadata", "[Application]\nRuntime=R/x/1")],
       [("org.flatpak.ref", "runtime/R/x/1"),
        ("org.flatpak.metadata", "[Application]\nRuntime=S/x/1")]] =
      .ok ["app/A/x/1", "runtime/R/x/1", "runtime/S/x/1"] ∧
    FlatpakSource.canon_refs "x86_64" ["app/A/x/1"] = .ok ["app/A/x/1"] ∧
    (∀ ls ∈ [[("org.flatpak.ref", "app/A/x/1"),
        ("org.flatpak.metadata", "[Application]\nRuntime=R/x/1")],
       [("org.flatpak.ref", "runtime/R/x/1"),
        ("org.flatpak.metadata", "[Application]\nRuntime=S/x/1")]],
      memStr ((SourceImage.ref ls).getD "") ["app/A/x/1"] = true →
        FlatpakSource.image_runtime ls ≠ .ok (some "S/x/1")) :=
  ⟨rfl, rfl, by decide⟩

/-- C3 (amended): expansion is a single left-to-right pass over the
catalog, not single-level: every expanded reference is either a
canonicalized input, or the runtime reference declared by the catalog
image at some position `i` whose own `ref` was already in the
expansion of the catalog truncated to its first `i` images (so a
runtime image added by an earlier catalog image can itself contribute
when it appears later in catalog order). -/
theorem claim_c3_amended (arch : String) (refs : List String) (imgs : List Labels)
    (res : List String) (h : FlatpakSource.expand_refs arch refs imgs = .ok res) :
    ∀ x ∈ res,
      (∃ cres, FlatpakSource.canon_refs arch refs = .ok cres ∧ x ∈ cres) ∨
      ∃ i : Nat, ∃ hi : i < imgs.length, ∃ prev,
        FlatpakSource.expand_refs arch refs (imgs.take i) = .ok prev ∧
        (∃ s, SourceImage.ref (imgs.get ⟨i, hi⟩) = some s ∧ s ∈ prev) ∧
        ∃ rt, FlatpakSource.image_runtime (imgs.get ⟨i, hi⟩) = .ok (some rt) ∧
          x = "runtime/" ++ rt := by
  intro x hx
  unfold FlatpakSource.expand_refs at h
  rcases hc : FlatpakSource.canon_refs arch refs with e | canon <;> rw [hc] at h
  · cases h
  · rcases expand_loop_char imgs canon res h x hx with h1 | ⟨i, hi, prev, hloop, hs, hrt⟩
    · exact Or.inl ⟨canon, rfl, h1⟩
    · refine Or.inr ⟨i, hi, prev, ?_, hs, hrt⟩
      unfold FlatpakSource.expand_refs
      rw [hc]
      exact hloop

/-- C3 (amended, witness): the characterization applied to a concrete
one-image catalog at the expanded runtime reference. -/
theorem claim_c3_amended_witness :
    (∃ cres, FlatpakSource.canon_refs "x86_64" ["app/A/x/1"] = .ok cres ∧
      "runtime/R/x/1" ∈ cres) ∨
    ∃ i : Nat,
      ∃ hi : i < ([[("org.flatpak.ref", "app/A/x/1"),
        ("org.flatpak.metadata", "[Application]\nRuntime=R/x/1")]] : List Labels).length,
      ∃ prev, FlatpakSource.expand_refs "x86_64" ["app/A/x/1"]
          (([[("org.flatpak.ref", "app/A/x/1"),
            ("org.flatpak.metadata", "[Application]\nRuntime=R/x/1")]] : List Labels).take i) =
          .ok prev ∧
        (∃ s, SourceImage.ref (([[("org.flatpak.ref", "app/A/x/1"),
          ("org.flatpak.metadata", "[Application]\nRuntime=R/x/1")]] : List Labels).get ⟨i, hi⟩) =
            some s ∧ s ∈ prev) ∧
        ∃ rt, FlatpakSource.image_runtime
            (([[("org.flatpak.ref", "app/A/x/1"),
              ("org.flatpak.metadata", "[Application]\nRuntime=R/x/1")]] : List Labels).get
              ⟨i, hi⟩) = .ok (some rt) ∧
          "runtime/R/x/1" = "runtime/" ++ rt :=
  claim_c3_amended "x86_64" ["app/A/x/1"]
    [[("org.flatpak.ref", "app/A/x/1"),
      ("org.flatpak.metadata", "[Application]\nRuntime=R/x/1")]]
    ["app/A/x/1", "runtime/R/x/1"] rfl "runtime/R/x/1" (by decide)

/-- C4: the code does NOT tolerate every malformed metadata case.  A
metadata document whose `Application` section lacks a `Runtime` key
makes `ConfigParser.get` raise `NoOptionError`, which the
`except (NoSectionError, KeyError)` clause does not catch, and a
document that does not parse at all raises
`MissingSectionHeaderError`/`ParsingError` from `read_string`, outside
the `try` block — so `_expand_refs` (and with it `calculate_size` and
`download`) raises instead of treating the image as having no runtime
dependency. -/
theorem claim_c4_code_bug :
    FlatpakSource.expand_refs "x86_64" ["app/A/x86_64/1"]
      [[("org.flatpak.ref", "app/A/x86_64/1"),
        ("org.flatpak.metadata", "[Application]\nName=Foo")]] =
      .error .noOptionError ∧
    FlatpakSource.expand_refs "x86_64" ["app/A/x86_64/1"]
      [[("org.flatpak.ref", "app/A/x86_64/1"),
        ("org.flatpak.metadata", "Runtime=R/x86_64/1")]] =
      .error .missingSectionHeaderError :=
  ⟨rfl, rfl⟩

/-- C6 (counterexample): canonicalization is not idempotent on every
reference it accepts.  `"c:a/b:x/y/z"` canonicalizes to the 4-segment
path `"a/b:x/y/z"`, but canonicalizing that path again splits at its
embedded colon and fails with the format error. -/
theorem claim_c6_counterexample :
    canonicalize_flatpak_ref "x86_64" "c:a/b:x/y/z" = .ok (some "c", "a/b:x/y/z") ∧
    canonicalize_flatpak_ref "x86_64" "a/b:x/y/z" = .error .runtimeError :=
  ⟨rfl, rfl⟩

/-- C6 (amended): canonicalization is idempotent on every accepted
reference whose canonical path contains no colon (and with a
slash-free architecture string): re-canonicalizing the returned path
succeeds and returns the same path with no collection ID. -/
theorem claim_c6_amended (arch r p : String) (c : Option String)
    (h : canonicalize_flatpak_ref arch r = .ok (c, p))
    (hcolon : ':' ∉ p.data) (hslash : '/' ∉ arch.data) :
    canonicalize_flatpak_ref arch p = .ok (none, p) := by
  rcases canon_ok_path arch r c p h with ⟨parts, hlen, hdata, hsegs, hg⟩
  have hfree : ∀ seg ∈ parts, '/' ∉ seg := by
    intro seg hseg
    rcases hsegs seg hseg with h1 | h1
    · exact h1
    · rw [h1]; exact hslash
  have hne : parts ≠ [] := by
    intro hh
    rw [hh] at hlen
    cases hlen
  have hsp : splitChar '/' p.data = parts := by
    rw [hdata]
    exact splitChar_joinSep '/' parts hne hfree
  have hso : splitOnceChar ':' p.data = none := splitOnceChar_none ':' p.data hcolon
  simp only [canonicalize_flatpak_ref, hso, hsp]
  rw [if_pos hlen]
  by_cases hgd : parts.getD 2 [] = []
  · have harch : arch.data = [] := hg hgd
    have hsetid : parts.set 2 [] = parts := by
      have h5 := set_getD_self parts 2 [] (by rw [hlen]; omega)
      rw [hgd] at h5
      exact h5
    rw [if_pos hgd, harch, hsetid, ← hdata]
  · rw [if_neg hgd, ← hdata]

/-- C6 (amended, witness): filling in the architecture and
re-canonicalizing at a concrete reference. -/
theorem claim_c6_amended_witness :
    canonicalize_flatpak_ref "x86_64" "app/org.example.Foo/x86_64/stable" =
      .ok (none, "app/org.example.Foo/x86_64/stable") :=
  claim_c6_amended "x86_64" "app/org.example.Foo//stable"
    "app/org.example.Foo/x86_64/stable" none rfl (by decide) (by decide)

/-- C7 (counterexample): expansion is not a strict superset whenever
some input image declares a runtime dependency: when the declared
runtime reference is itself among the canonicalized inputs, the
expanded list equals the canonicalized input list. -/
theorem claim_c7_counterexample :
    FlatpakSource.expand_refs "x86_64" ["app/A/x/1", "runtime/R/x/1"]
      [[("org.flatpak.ref", "app/A/x/1"),
        ("org.flatpak.metadata", "[Application]\nRuntime=R/x/1")]] =
      .ok ["app/A/x/1", "runtime/R/x/1"] ∧
    FlatpakSource.canon_refs "x86_64" ["app/A/x/1", "runtime/R/x/1"] =
      .ok ["app/A/x/1", "runtime/R/x/1"] ∧
    SourceImage.ref [("org.flatpak.ref", "app/A/x/1"),
      ("org.flatpak.metadata", "[Application]\nRuntime=R/x/1")] = some "app/A/x/1" ∧
    FlatpakSource.image_runtime [("org.flatpak.ref", "app/A/x/1"),
      ("org.flatpak.metadata", "[Application]\nRuntime=R/x/1")] = .ok (some "R/x/1") :=
  ⟨rfl, rfl, rfl, rfl⟩

/-- C7 (amended): the expanded list always extends the canonicalized
inputs (expansion never removes references), and is a strict superset
whenever some catalog image whose `ref` is among the canonicalized
inputs declares a nonempty runtime whose runtime reference is not
itself among the canonicalized inputs. -/
theorem claim_c7_amended (arch : String) (refs : List String) (imgs : List Labels)
    (res cres : List String)
    (h : FlatpakSource.expand_refs arch refs imgs = .ok res)
    (hc : FlatpakSource.canon_refs arch refs = .ok cres) :
    (∃ t, res = cres ++ t) ∧
    (∀ ls ∈ imgs, ∀ s rt, SourceImage.ref ls = some s → s ∈ cres →
      FlatpakSource.image_runtime ls = .ok (some rt) → rt ≠ "" →
      ("runtime/" ++ rt) ∉ cres → ∃ x ∈ res, x ∉ cres) := by
  unfold FlatpakSource.expand_refs at h
  rw [hc] at h
  constructor
  · exact expand_loop_append imgs cres res h
  · intro ls hls s rt href hscres hrt hempty hnotin
    refine ⟨"runtime/" ++ rt, ?_, hnotin⟩
    exact expand_loop_runtime_mem imgs cres res ls s rt h hls href hscres hrt hempty

/-- C7 (amended, witness): both conjuncts applied to a concrete
catalog whose application image declares a runtime that was not
requested. -/
theorem claim_c7_amended_witness :
    (∃ t, (["app/A/x/1", "runtime/R/x/1"] : List String) = ["app/A/x/1"] ++ t) ∧
    (∃ x ∈ (["app/A/x/1", "runtime/R/x/1"] : List String), x ∉ (["app/A/x/1"] : List String)) := by
  have h := claim_c7_amended "x86_64" ["app/A/x/1"]
    [[("org.flatpak.ref", "app/A/x/1"),
      ("org.flatpak.metadata", "[Application]\nRuntime=R/x/1")]]
    ["app/A/x/1", "runtime/R/x/1"] ["app/A/x/1"] rfl rfl
  refine ⟨h.1, ?_⟩
  exact h.2 [("org.flatpak.ref", "app/A/x/1"),
      ("org.flatpak.metadata", "[Application]\nRuntime=R/x/1")] (by decide)
    "app/A/x/1" "R/x/1" rfl (by decide) rfl (by decide) (by decide)

theorem image_included_iff (expanded : List String) (ls : Labels) :
    image_included expanded ls = true ↔
      ∃ r, SourceImage.ref ls = some r ∧ memStr r expanded = true := by
  unfold image_included
  rcases SourceImage.ref ls with _ | r <;> simp

/-- Unrolled specification of the static size loop: the accumulators
receive the layer-size sums (unless local) and the label-declared
installed sizes of exactly the included images. -/
theorem size_loop_spec (is_local : Bool) (expanded : List String)
    (imgs : List StaticSourceImage) :
    ∀ (dl inst : Int) (insts : List Int),
      sizes_of SourceImage.installed_size
        ((imgs.filter (fun img => image_included expanded img.labels)).map
          StaticSourceImage.labels) = .ok insts →
      FlatpakStaticSource.size_loop is_local expanded imgs dl inst =
        .ok (dl + (if is_local then 0 else
              ((imgs.filter (fun img => image_included expanded img.labels)).map
                StaticSourceImage.download_size).sum),
             inst + insts.sum) := by
  induction imgs with
  | nil =>
    intro dl inst insts h
    simp only [List.filter_nil, List.map_nil, sizes_of] at h
    rw [← Except.ok.inj h]
    simp [FlatpakStaticSource.size_loop]
  | cons img rest ih =>
    intro dl inst insts h
    by_cases hinc : image_included expanded img.labels = true
    · rcases (image_included_iff expanded img.labels).mp hinc with ⟨r, href, hmem⟩
      simp only [List.filter_cons] at h ⊢
      rw [if_pos hinc] at h ⊢
      rw [List.map_cons] at h
      simp only [sizes_of] at h
      rcases hi : SourceImage.installed_size img.labels with e | i <;> simp only [hi] at h
      · exact Except.noConfusion h
      · rcases hrest : sizes_of SourceImage.installed_size
            ((rest.filter (fun img => image_included expanded img.labels)).map
              StaticSourceImage.labels) with e | others <;> simp only [hrest] at h
        · exact Except.noConfusion h
        · rw [← Except.ok.inj h]
          simp only [FlatpakStaticSource.size_loop, href]
          rw [if_pos hmem]
          simp only [hi]
          rw [ih _ _ others hrest]
          cases is_local <;> simp [add_assoc]
    · simp only [List.filter_cons] at h ⊢
      rw [if_neg hinc] at h ⊢
      rcases href : SourceImage.ref img.labels with _ | r
      · simp only [FlatpakStaticSource.size_loop, href]
        exact ih dl inst insts h
      · simp only [image_included, href] at hinc
        simp only [FlatpakStaticSource.size_loop, href]
        rw [if_neg hinc]
        exact ih dl inst insts h

/-- C1: for a static source, `calculate_size` returns the pair whose
installed slot is the sum of the label-declared installed sizes over
exactly the catalog images whose `ref` is in the expanded reference
set, and whose download slot is 0 for a local `file://` source and
otherwise the sum of those images' manifest layer-size sums. -/
theorem claim_c1 (src : FlatpakStaticSource) (arch : String)
    (images : List StaticSourceImage) (refs : List String)
    (expanded : List String) (insts : List Int)
    (hexp : FlatpakSource.expand_refs arch refs
      (images.map StaticSourceImage.labels) = .ok expanded)
    (hinst : sizes_of SourceImage.installed_size
      ((images.filter (fun img => image_included expanded img.labels)).map
        StaticSourceImage.labels) = .ok insts) :
    src.calculate_size arch images refs =
      .ok ((if src.is_local then 0 else
            ((images.filter (fun img => image_included expanded img.labels)).map
              StaticSourceImage.download_size).sum),
           insts.sum) := by
  simp only [FlatpakStaticSource.calculate_size, hexp]
  rw [size_loop_spec src.is_local expanded images 0 0 insts hinst]
  simp

/-- C1 (witness): the spec's worked scenario, remote and local: the
application image (layer sum 900, installed 5000) pulls in its runtime
(no layers, installed 2000), giving `(900, 7000)` remotely and
`(0, 7000)` locally. -/
theorem claim_c1_witness :
    FlatpakStaticSource.calculate_size ⟨"https://example.com/repo/Flatpaks"⟩ "x86_64"
      [fooImage, platformImage] ["app/org.example.Foo//stable"] = .ok (900, 7000) ∧
    FlatpakStaticSource.calculate_size ⟨"file:///srv/repo/Flatpaks"⟩ "x86_64"
      [fooImage, platformImage] ["app/org.example.Foo//stable"] = .ok (0, 7000) :=
  ⟨(claim_c1 ⟨"https://example.com/repo/Flatpaks"⟩ "x86_64" [fooImage, platformImage]
      ["app/org.example.Foo//stable"]
      ["app/org.example.Foo/x86_64/stable", "runtime/org.example.Platform/x86_64/1.0"]
      [5000, 2000] rfl rfl).trans (by rfl),
   (claim_c1 ⟨"file:///srv/repo/Flatpaks"⟩ "x86_64" [fooImage, platformImage]
      ["app/org.example.Foo//stable"]
      ["app/org.example.Foo/x86_64/stable", "runtime/org.example.Platform/x86_64/1.0"]
      [5000, 2000] rfl rfl).trans (by rfl)⟩

theorem foldl_max_init_le (l : List Int) : ∀ a : Int, a ≤ l.foldl max a := by
  induction l with
  | nil => intro a; exact le_refl a
  | cons d rest ih =>
    intro a
    exact le_trans (le_max_left a d) (ih (max a d))

theorem foldl_max_ub (l : List Int) : ∀ a : Int, ∀ x ∈ l, x ≤ l.foldl max a := by
  induction l with
  | nil => intro a x hx; exact absurd hx (List.not_mem_nil x)
  | cons d rest ih =>
    intro a x hx
    rcases List.mem_cons.mp hx with h1 | h1
    · subst h1
      exact le_trans (le_max_right a x) (foldl_max_init_le rest (max a x))
    · exact ih (max a d) x h1

theorem foldl_max_mem_or_init (l : List Int) :
    ∀ a : Int, l.foldl max a = a ∨ l.foldl max a ∈ l := by
  induction l with
  | nil => intro a; exact Or.inl rfl
  | cons d rest ih =>
    intro a
    rcases ih (max a d) with h1 | h1
    · rcases max_choice a d with h2 | h2
      · exact Or.inl (by rw [List.foldl_cons, h1, h2])
      · exact Or.inr (by rw [List.foldl_cons, h1, h2]; exact List.mem_cons_self d rest)
    · exact Or.inr (List.mem_cons_of_mem d (by rw [List.foldl_cons]; exact h1))

/-- With non-negative entries, `foldl max 0` is the maximum of the
list, or 0 when the list is empty. -/
theorem foldl_max_zero_char (l : List Int) (hpos : ∀ x ∈ l, 0 ≤ x) :
    (l = [] ∧ l.foldl max 0 = 0) ∨
      (l.foldl max 0 ∈ l ∧ ∀ x ∈ l, x ≤ l.foldl max 0) := by
  cases l with
  | nil => exact Or.inl ⟨rfl, rfl⟩
  | cons d rest =>
    refine Or.inr ⟨?_, foldl_max_ub (d :: rest) 0⟩
    rcases foldl_max_mem_or_init (d :: rest) 0 with h1 | h1
    · have hd : d ≤ (d :: rest).foldl max 0 :=
        foldl_max_ub (d :: rest) 0 d (List.mem_cons_self d rest)
      have hd0 : 0 ≤ d := hpos d (List.mem_cons_self d rest)
      have : d = 0 := le_antisymm (h1 ▸ hd) hd0
      rw [h1, ← this]
      exact List.mem_cons_self d rest
    · exact h1

/-- Unrolled specification of the registry size loop: the first slot
folds `max` over the label-declared download sizes of the included
images, the second sums their installed sizes. -/
theorem reg_size_loop_spec (expanded : List String) (imgs : List Labels) :
    ∀ (m inst : Int) (dls insts : List Int),
      sizes_of SourceImage.download_size (imgs.filter (image_included expanded)) = .ok dls →
      sizes_of SourceImage.installed_size (imgs.filter (image_included expanded)) = .ok insts →
      FlatpakRegistrySource.size_loop expanded imgs m inst =
        .ok (dls.foldl max m, inst + insts.sum) := by
  induction imgs with
  | nil =>
    intro m inst dls insts hdl hinst
    simp only [List.filter_nil, sizes_of] at hdl hinst
    rw [← Except.ok.inj hdl, ← Except.ok.inj hinst]
    simp [FlatpakRegistrySource.size_loop]
  | cons ls rest ih =>
    intro m inst dls insts hdl hinst
    by_cases hinc : image_included expanded ls = true
    · rcases (image_included_iff expanded ls).mp hinc with ⟨r, href, hmem⟩
      rw [List.filter_cons_of_pos hinc] at hdl hinst
      simp only [sizes_of] at hdl hinst
      rcases hd : SourceImage.download_size ls with e | d <;> simp only [hd] at hdl
      · exact Except.noConfusion hdl
      · rcases hi : SourceImage.installed_size ls with e | i <;> simp only [hi] at hinst
        · exact Except.noConfusion hinst
        · rcases hdrest : sizes_of SourceImage.download_size
              (rest.filter (image_included expanded)) with e | drest <;>
            simp only [hdrest] at hdl
          · exact Except.noConfusion hdl
          · rcases hirest : sizes_of SourceImage.installed_size
                (rest.filter (image_included expanded)) with e | irest <;>
              simp only [hirest] at hinst
            · exact Except.noConfusion hinst
            · rw [← Except.ok.inj hdl, ← Except.ok.inj hinst]
              simp only [FlatpakRegistrySource.size_loop, href]
              rw [if_pos hmem]
              simp only [hd, hi]
              rw [ih _ _ drest irest hdrest hirest]
              simp [add_assoc]
    · rw [List.filter_cons_of_neg hinc] at hdl hinst
      rcases href : SourceImage.ref ls with _ | r
      · simp only [FlatpakRegistrySource.size_loop, href]
        exact ih m inst dls insts hdl hinst
      · simp only [image_included, href] at hinc
        simp only [FlatpakRegistrySource.size_loop, href]
        rw [if_neg hinc]
        exact ih m inst dls insts hdl hinst

/-- C2: for a registry source, `calculate_size` always returns 0 in
the first slot, and on success the second slot is the sum of the
label-declared installed sizes plus the fold-max of the label-declared
download sizes over exactly the catalog images in the expanded set —
which, for non-negative sizes, is the maximum single-image download
size (0 when no image matches). -/
theorem claim_c2 (arch : String) (images : List Labels) (refs : List String)
    (expanded : List String) (dls insts : List Int)
    (hexp : FlatpakSource.expand_refs arch refs images = .ok expanded)
    (hdl : sizes_of SourceImage.download_size
      (images.filter (image_included expanded)) = .ok dls)
    (hinst : sizes_of SourceImage.installed_size
      (images.filter (image_included expanded)) = .ok insts)
    (hpos : ∀ x ∈ dls, 0 ≤ x) :
    FlatpakRegistrySource.calculate_size arch images refs =
      .ok (0, insts.sum + dls.foldl max 0) ∧
    ((dls = [] ∧ dls.foldl max 0 = 0) ∨
      (dls.foldl max 0 ∈ dls ∧ ∀ x ∈ dls, x ≤ dls.foldl max 0)) ∧
    (∀ (refs2 : List String) (p : Int × Int),
      FlatpakRegistrySource.calculate_size arch images refs2 = .ok p → p.1 = 0) := by
  refine ⟨?_, foldl_max_zero_char dls hpos, ?_⟩
  · simp only [FlatpakRegistrySource.calculate_size, hexp]
    rw [reg_size_loop_spec expanded images 0 0 dls insts hdl hinst]
    simp
  · intro refs2 p hp
    unfold FlatpakRegistrySource.calculate_size at hp
    rcases h2 : FlatpakSource.expand_refs arch refs2 images with e | exp2 <;>
      simp only [h2] at hp
    · exact Except.noConfusion hp
    · rcases h3 : FlatpakRegistrySource.size_loop exp2 images 0 0 with e | ⟨m2, i2⟩ <;>
        simp only [h3] at hp
      · exact Except.noConfusion hp
      · rw [← Except.ok.inj hp]

/-- C2 (witness): a registry catalog of two images, both requested:
download sizes 300 and 100, installed sizes 50 and 60, giving
`(0, 50 + 60 + 300) = (0, 410)`. -/
theorem claim_c2_witness :
    FlatpakRegistrySource.calculate_size "x86_64"
      [[("org.flatpak.ref", "app/A/x86_64/s"), ("org.flatpak.download-size", "300"),
        ("org.flatpak.installed-size", "50")],
       [("org.flatpak.ref", "app/B/x86_64/s"), ("org.flatpak.download-size", "100"),
        ("org.flatpak.installed-size", "60")]]
      ["app/A//s", "app/B/x86_64/s"] = .ok (0, 410) :=
  ((claim_c2 "x86_64"
      [[("org.flatpak.ref", "app/A/x86_64/s"), ("org.flatpak.download-size", "300"),
        ("org.flatpak.installed-size", "50")],
       [("org.flatpak.ref", "app/B/x86_64/s"), ("org.flatpak.download-size", "100"),
        ("org.flatpak.installed-size", "60")]]
      ["app/A//s", "app/B/x86_64/s"]
      ["app/A/x86_64/s", "app/B/x86_64/s"] [300, 100] [50, 60]
      rfl rfl rfl (by decide)).1).trans (by rfl)

theorem memStr_congr (a b : List String) (heq : ∀ x, x ∈ a ↔ x ∈ b) (y : String) :
    memStr y a = memStr y b := by
  by_cases hy : y ∈ a
  · rw [(memStr_iff y a).mpr hy, (memStr_iff y b).mpr ((heq y).mp hy)]
  · rw [(memStr_eq_false y a).mpr hy,
        (memStr_eq_false y b).mpr (fun hb => hy ((heq y).mpr hb))]

/-- `expand_step` depends on its accumulator only through membership:
membership-equivalent accumulators yield the same error, or
membership-equivalent results. -/
theorem expand_step_congr (a b : List String) (ls : Labels)
    (heq : ∀ x, x ∈ a ↔ x ∈ b) :
    (∀ e, FlatpakSource.expand_step a ls = .error e →
      FlatpakSource.expand_step b ls = .error e) ∧
    (∀ r1, FlatpakSource.expand_step a ls = .ok r1 →
      ∃ r2, FlatpakSource.expand_step b ls = .ok r2 ∧ ∀ x, x ∈ r1 ↔ x ∈ r2) := by
  rcases href : SourceImage.ref ls with _ | r
  · simp only [FlatpakSource.expand_step, href]
    exact ⟨fun e he => Except.noConfusion he,
      fun r1 h1 => ⟨b, rfl, by rw [← Except.ok.inj h1]; exact heq⟩⟩
  · have hm := memStr_congr a b heq r
    simp only [FlatpakSource.expand_step, href]
    rw [← hm]
    by_cases hmem : memStr r a = true
    case neg =>
      rw [if_neg hmem, if_neg hmem]
      exact ⟨fun e he => Except.noConfusion he,
        fun r1 h1 => ⟨b, rfl, by rw [← Except.ok.inj h1]; exact heq⟩⟩
    case pos =>
      rw [if_pos hmem, if_pos hmem]
      rcases hrt : FlatpakSource.image_runtime ls with e0 | _ | rt <;> simp only [hrt]
      · exact ⟨fun e he => he, fun r1 h1 => Except.noConfusion h1⟩
      · exact ⟨fun e he => Except.noConfusion he,
          fun r1 h1 => ⟨b, rfl, by rw [← Except.ok.inj h1]; exact heq⟩⟩
      · by_cases hrte : rt = ""
        · rw [if_pos hrte, if_pos hrte]
          exact ⟨fun e he => Except.noConfusion he,
            fun r1 h1 => ⟨b, rfl, by rw [← Except.ok.inj h1]; exact heq⟩⟩
        · rw [if_neg hrte, if_neg hrte]
          have hm2 := memStr_congr a b heq ("runtime/" ++ rt)
          rw [← hm2]
          by_cases hmem2 : memStr ("runtime/" ++ rt) a = true
          case neg =>
            rw [if_neg hmem2, if_neg hmem2]
            refine ⟨fun e he => Except.noConfusion he,
              fun r1 h1 => ⟨b ++ ["runtime/" ++ rt], rfl, ?_⟩⟩
            rw [← Except.ok.inj h1]
            intro x
            simp only [List.mem_append, List.mem_singleton]
            exact or_congr (heq x) Iff.rfl
          case pos =>
            rw [if_pos hmem2, if_pos hmem2]
            exact ⟨fun e he => Except.noConfusion he,
              fun r1 h1 => ⟨b, rfl, by rw [← Except.ok.inj h1]; exact heq⟩⟩

/-- `expand_loop` preserves membership-equivalence of accumulators. -/
theorem expand_loop_congr (imgs : List Labels) : ∀ (a b : List String),
    (∀ x, x ∈ a ↔ x ∈ b) →
    (∀ e, FlatpakSource.expand_loop a imgs = .error e →
      FlatpakSource.expand_loop b imgs = .error e) ∧
    (∀ r1, FlatpakSource.expand_loop a imgs = .ok r1 →
      ∃ r2, FlatpakSource.expand_loop b imgs = .ok r2 ∧ ∀ x, x ∈ r1 ↔ x ∈ r2) := by
  induction imgs with
  | nil =>
    intro a b heq
    constructor
    · intro e he
      simp only [FlatpakSource.expand_loop] at he
      exact Except.noConfusion he
    · intro r1 h1
      simp only [FlatpakSource.expand_loop] at h1 ⊢
      exact ⟨b, rfl, by rw [← Except.ok.inj h1]; exact heq⟩
  | cons ls rest ih =>
    intro a b heq
    rcases hstep : FlatpakSource.expand_step a ls with e0 | a2
    · have hb := (expand_step_congr a b ls heq).1 e0 hstep
      constructor
      · intro e he
        simp only [FlatpakSource.expand_loop, hstep] at he
        simp only [FlatpakSource.expand_loop, hb]
        exact he
      · intro r1 h1
        simp only [FlatpakSource.expand_loop, hstep] at h1
        exact Except.noConfusion h1
    · rcases (expand_step_congr a b ls heq).2 a2 hstep with ⟨b2, hstepb, heq2⟩
      constructor
      · intro e he
        simp only [FlatpakSource.expand_loop, hstep] at he
        simp only [FlatpakSource.expand_loop, hstepb]
        exact (ih a2 b2 heq2).1 e he
      · intro r1 h1
        simp only [FlatpakSource.expand_loop, hstep] at h1
        rcases (ih a2 b2 heq2).2 r1 h1 with ⟨r2, h2, heq3⟩
        refine ⟨r2, ?_, heq3⟩
        simp only [FlatpakSource.expand_loop, hstepb]
        exact h2

/-- The static size loop yields identical results on
membership-equivalent expanded sets. -/
theorem static_size_loop_congr (e1 e2 : List String) (heq : ∀ x, x ∈ e1 ↔ x ∈ e2)
    (is_local : Bool) (imgs : List StaticSourceImage) :
    ∀ dl inst, FlatpakStaticSource.size_loop is_local e1 imgs dl inst =
      FlatpakStaticSource.size_loop is_local e2 imgs dl inst := by
  induction imgs with
  | nil => intro dl inst; rfl
  | cons img rest ih =>
    intro dl inst
    rcases href : SourceImage.ref img.labels with _ | r
    · simp only [FlatpakStaticSource.size_loop, href]
      exact ih dl inst
    · have hm := memStr_congr e1 e2 heq r
      simp only [FlatpakStaticSource.size_loop, href]
      rw [← hm]
      by_cases hmem : memStr r e1 = true
      case neg =>
        rw [if_neg hmem, if_neg hmem]
        exact ih dl inst
      case pos =>
        rw [if_pos hmem, if_pos hmem]
        rcases hi : SourceImage.installed_size img.labels with e | i <;> simp only [hi]
        exact ih _ _

/-- The registry size loop yields identical results on
membership-equivalent expanded sets. -/
theorem registry_size_loop_congr (e1 e2 : List String) (heq : ∀ x, x ∈ e1 ↔ x ∈ e2)
    (imgs : List Labels) :
    ∀ m inst, FlatpakRegistrySource.size_loop e1 imgs m inst =
      FlatpakRegistrySource.size_loop e2 imgs m inst := by
  induction imgs with
  | nil => intro m inst; rfl
  | cons ls rest ih =>
    intro m inst
    rcases href : SourceImage.ref ls with _ | r
    · simp only [FlatpakRegistrySource.size_loop, href]
      exact ih m inst
    · have hm := memStr_congr e1 e2 heq r
      simp only [FlatpakRegistrySource.size_loop, href]
      rw [← hm]
      by_cases hmem : memStr r e1 = true
      case neg =>
        rw [if_neg hmem, if_neg hmem]
        exact ih m inst
      case pos =>
        rw [if_pos hmem, if_pos hmem]
        rcases hd : SourceImage.download_size ls with e | d <;> simp only [hd]
        rcases hi : SourceImage.installed_size ls with e | i <;> simp only [hi]
        exact ih _ _

/-- C10: `calculate_size` depends only on the membership of the
canonicalized reference set, for both source kinds: inputs whose
canonicalizations are membership-equivalent (duplicates, collection
prefixes, omitted architecture segments) give identical results. -/
theorem claim_c10 (arch : String) (src : FlatpakStaticSource)
    (simgs : List StaticSourceImage) (rimgs : List Labels)
    (refs1 refs2 : List String) (c1 c2 : List String)
    (h1 : FlatpakSource.canon_refs arch refs1 = .ok c1)
    (h2 : FlatpakSource.canon_refs arch refs2 = .ok c2)
    (heq : ∀ x, x ∈ c1 ↔ x ∈ c2) :
    src.calculate_size arch simgs refs1 = src.calculate_size arch simgs refs2 ∧
    FlatpakRegistrySource.calculate_size arch rimgs refs1 =
      FlatpakRegistrySource.calculate_size arch rimgs refs2 := by
  constructor
  · simp only [FlatpakStaticSource.calculate_size, FlatpakSource.expand_refs, h1, h2]
    rcases hl : FlatpakSource.expand_loop c1 (simgs.map StaticSourceImage.labels)
      with e | res1
    · have hb := (expand_loop_congr (simgs.map StaticSourceImage.labels) c1 c2 heq).1 e hl
      simp only [hl, hb]
    · rcases (expand_loop_congr (simgs.map StaticSourceImage.labels) c1 c2 heq).2 res1 hl
        with ⟨res2, hl2, heqr⟩
      simp only [hl, hl2]
      exact static_size_loop_congr res1 res2 heqr src.is_local simgs 0 0
  · simp only [FlatpakRegistrySource.calculate_size, FlatpakSource.expand_refs, h1, h2]
    rcases hl : FlatpakSource.expand_loop c1 rimgs with e | res1
    · have hb := (expand_loop_congr rimgs c1 c2 heq).1 e hl
      simp only [hl, hb]
    · rcases (expand_loop_congr rimgs c1 c2 heq).2 res1 hl with ⟨res2, hl2, heqr⟩
      simp only [hl, hl2]
      rw [registry_size_loop_congr res1 res2 heqr rimgs 0 0]

/-- C10 (witness): requesting the same application three times (with
an omitted architecture, a collection prefix, and in full form) gives
the same sizes as requesting it once, on both source kinds. -/
theorem claim_c10_witness :
    FlatpakStaticSource.calculate_size ⟨"https://example.com/repo/Flatpaks"⟩ "x86_64"
      [fooImage, platformImage]
      ["app/org.example.Foo//stable", "C:app/org.example.Foo/x86_64/stable",
       "app/org.example.Foo/x86_64/stable"] =
    FlatpakStaticSource.calculate_size ⟨"https://example.com/repo/Flatpaks"⟩ "x86_64"
      [fooImage, platformImage] ["app/org.example.Foo/x86_64/stable"] ∧
    FlatpakRegistrySource.calculate_size "x86_64"
      [[("org.flatpak.ref", "app/org.example.Foo/x86_64/stable"),
        ("org.flatpak.download-size", "7"), ("org.flatpak.installed-size", "3")]]
      ["app/org.example.Foo//stable", "C:app/org.example.Foo/x86_64/stable",
       "app/org.example.Foo/x86_64/stable"] =
    FlatpakRegistrySource.calculate_size "x86_64"
      [[("org.flatpak.ref", "app/org.example.Foo/x86_64/stable"),
        ("org.flatpak.download-size", "7"), ("org.flatpak.installed-size", "3")]]
      ["app/org.example.Foo/x86_64/stable"] :=
  claim_c10 "x86_64" ⟨"https://example.com/repo/Flatpaks"⟩ [fooImage, platformImage]
    [[("org.flatpak.ref", "app/org.example.Foo/x86_64/stable"),
      ("org.flatpak.download-size", "7"), ("org.flatpak.installed-size", "3")]]
    ["app/org.example.Foo//stable", "C:app/org.example.Foo/x86_64/stable",
     "app/org.example.Foo/x86_64/stable"]
    ["app/org.example.Foo/x86_64/stable"]
    ["app/org.example.Foo/x86_64/stable", "app/org.example.Foo/x86_64/stable",
     "app/org.example.Foo/x86_64/stable"]
    ["app/org.example.Foo/x86_64/stable"]
    rfl rfl (by intro x; simp)

/-- C8: on first catalog load, a 404 for the index document raises the
distinct `NoSourceError`, while any other 4xx/5xx status raises the
generic HTTP transport error; in both cases exactly one request (to
`<url>/index.json`) was issued — nothing is retried internally. -/
theorem claim_c8 (src : FlatpakStaticSource) (origin : StaticOrigin) :
    ((origin.fetch (src.url ++ "/index.json")).status = 404 →
      FlatpakStaticSource.images_compute src origin World.empty =
        (.error .noSourceError, ⟨[], [src.url ++ "/index.json"], []⟩)) ∧
    (∀ s : Nat, (origin.fetch (src.url ++ "/index.json")).status = s →
      400 ≤ s → s < 600 → s ≠ 404 →
      FlatpakStaticSource.images_compute src origin World.empty =
        (.error (.httpError s), ⟨[], [src.url ++ "/index.json"], []⟩)) := by
  constructor
  · intro h404
    simp only [FlatpakStaticSource.images_compute]
    rw [if_pos h404]
    rfl
  · intro s hs h4 h6 hne
    have hbad : statusBad s = true := by
      simp [statusBad]
      omega
    simp only [FlatpakStaticSource.images_compute, hs]
    rw [if_neg hne, if_pos hbad]
    rfl

/-- C8 (witness): a 404 origin raises the no-source condition, a 500
origin raises the generic transport error, each after exactly one
request. -/
theorem claim_c8_witness :
    FlatpakStaticSource.images_compute ⟨"http://h/F"⟩ notFoundOrigin World.empty =
      (.error .noSourceError, ⟨[], ["http://h/F/index.json"], []⟩) ∧
    FlatpakStaticSource.images_compute ⟨"http://h/F"⟩ serverErrorOrigin World.empty =
      (.error (.httpError 500), ⟨[], ["http://h/F/index.json"], []⟩) :=
  ⟨(claim_c8 ⟨"http://h/F"⟩ notFoundOrigin).1 rfl,
   (claim_c8 ⟨"http://h/F"⟩ serverErrorOrigin).2 500 rfl (by omega) (by omega) (by omega)⟩

theorem alookup_aset_self {α : Type} (c : List (String × α)) (k : String) (v : α) :
    alookup (aset c k v) k = some v := by
  induction c with
  | nil => simp [aset, alookup]
  | cons p rest ih =>
    rcases p with ⟨k2, v2⟩
    by_cases hk : k2 = k
    · simp [aset, hk, alookup]
    · simp [aset, hk, alookup, ih]

theorem alookup_aset_ne {α : Type} (c : List (String × α)) (k k2 : String) (v : α)
    (hne : ¬ k2 = k) : alookup (aset c k v) k2 = alookup c k2 := by
  have hne2 : ¬ k = k2 := fun h => hne h.symm
  induction c with
  | nil =>
    simp only [aset, alookup]
    rw [if_neg hne2]
  | cons p rest ih =>
    rcases p with ⟨k3, v3⟩
    by_cases hk : k3 = k
    · subst hk
      simp only [aset, if_pos rfl, alookup]
      rw [if_neg hne2, if_neg hne2]
    · simp only [aset, if_neg hk, alookup]
      rw [ih]

/-- Anatomy of a successful `_get_blob` fetch: the returned body is
the origin's response body at the blob URL, the request was recorded,
and the body was cached. -/
theorem get_blob_fetch_ok (src : FlatpakStaticSource) (origin : StaticOrigin)
    (digest : String) (w w1 : World) (b1 : BlobVal)
    (h : FlatpakStaticSource.get_blob_fetch src origin digest w = (.ok b1, w1)) :
    b1 = (origin.fetch (blob_url src.url digest)).content ∧
    w1 = { w with cache := aset w.cache digest b1,
                  reqs := w.reqs ++ [blob_url src.url digest] } := by
  unfold FlatpakStaticSource.get_blob_fetch at h
  by_cases hpre : pyStartsWith digest "sha256:" = true
  · rw [if_pos hpre] at h
    by_cases hbad : statusBad (origin.fetch (blob_url src.url digest)).status = true
    · rw [if_pos hbad] at h
      exact absurd (congrArg Prod.fst h) (by simp)
    · rw [if_neg hbad] at h
      have hfst := congrArg Prod.fst h
      have hsnd := congrArg Prod.snd h
      simp only at hfst hsnd
      refine ⟨(Except.ok.inj hfst).symm, ?_⟩
      rw [← hsnd, (Except.ok.inj hfst)]
  · rw [if_neg hpre] at h
    exact absurd (congrArg Prod.fst h) (by simp)

/-- C9 (counterexample): an empty `200 OK` blob body defeats the
cache's truthiness test (`if result:`): fetching the same digest twice
issues two retrievals, not at most one. -/
theorem claim_c9_counterexample :
    (FlatpakStaticSource.get_blob ⟨"http://h/F"⟩ emptyBlobOrigin "sha256:ab"
        World.empty).1 = .ok ⟨[], none⟩ ∧
    (FlatpakStaticSource.get_blob ⟨"http://h/F"⟩ emptyBlobOrigin "sha256:ab"
        ((FlatpakStaticSource.get_blob ⟨"http://h/F"⟩ emptyBlobOrigin "sha256:ab"
          World.empty).2)).1 = .ok ⟨[], none⟩ ∧
    ((FlatpakStaticSource.get_blob ⟨"http://h/F"⟩ emptyBlobOrigin "sha256:ab"
        ((FlatpakStaticSource.get_blob ⟨"http://h/F"⟩ emptyBlobOrigin "sha256:ab"
          World.empty).2)).2).reqs =
      ["http://h/F/blobs/sha256/ab", "http://h/F/blobs/sha256/ab"] :=
  ⟨rfl, rfl, rfl⟩

/-- C9 (amended): two successive fetches of the same digest return
equal bytes; the second issues no new retrieval provided the first
body was nonempty (an empty cached body is fetched again); and a fetch
of a digest with no cache entry issues exactly one retrieval and
stores the body. -/
theorem claim_c9_amended (src : FlatpakStaticSource) (origin : StaticOrigin)
    (digest : String) (w w1 w2 : World) (b1 b2 : BlobVal) (s : Nat) :
    (alookup w.cache digest = none → pyStartsWith digest "sha256:" = true →
      (origin.fetch (blob_url src.url digest)).status = s → statusBad s = true →
      FlatpakStaticSource.get_blob src origin digest w =
        (.error (.httpError s),
         { w with reqs := w.reqs ++ [blob_url src.url digest] })) ∧
    (FlatpakStaticSource.get_blob src origin digest w = (.ok b1, w1) →
      FlatpakStaticSource.get_blob src origin digest w1 = (.ok b2, w2) →
      b2 = b1 ∧ (b1.bytes ≠ [] → w2 = w1) ∧
      (alookup w.cache digest = none →
        w1.reqs = w.reqs ++ [blob_url src.url digest] ∧
        alookup w1.cache digest = some b1)) := by
  constructor
  · intro hnone hpre hs hbad
    simp only [FlatpakStaticSource.get_blob, hnone]
    simp only [FlatpakStaticSource.get_blob_fetch]
    rw [if_pos hpre, hs, if_pos hbad]
  intro h1 h2
  have second : alookup w1.cache digest = some b1 →
      b2 = b1 ∧ (b1.bytes ≠ [] → w2 = w1) := by
    intro hcache1
    unfold FlatpakStaticSource.get_blob at h2
    simp only [hcache1] at h2
    by_cases hb1 : b1.bytes = []
    · rw [if_pos hb1] at h2
      rcases get_blob_fetch_ok src origin digest w1 w2 b2 h2 with ⟨hb2, _⟩
      constructor
      · rw [hb2]
        unfold FlatpakStaticSource.get_blob at h1
        rcases hcache : alookup w.cache digest with _ | b0 <;> simp only [hcache] at h1
        · exact (get_blob_fetch_ok src origin digest w w1 b1 h1).1.symm
        · by_cases hb0 : b0.bytes = []
          · rw [if_pos hb0] at h1
            exact (get_blob_fetch_ok src origin digest w w1 b1 h1).1.symm
          · rw [if_neg hb0] at h1
            have hfst := congrArg Prod.fst h1
            simp only at hfst
            -- cached hit: w1 = w, so the cache entry equals b1 and it is
            -- nonempty, contradicting hb1
            have hb1b0 : b1 = b0 := (Except.ok.inj hfst).symm
            exact absurd (hb1b0 ▸ hb1) hb0
      · intro hne
        exact absurd hb1 hne
    · rw [if_neg hb1] at h2
      have hfst := congrArg Prod.fst h2
      have hsnd := congrArg Prod.snd h2
      simp only at hfst hsnd
      exact ⟨(Except.ok.inj hfst).symm, fun _ => hsnd.symm⟩
  unfold FlatpakStaticSource.get_blob at h1
  rcases hcache : alookup w.cache digest with _ | b0 <;> simp only [hcache] at h1
  · rcases get_blob_fetch_ok src origin digest w w1 b1 h1 with ⟨hb1, hw1⟩
    have hcache1 : alookup w1.cache digest = some b1 := by
      rw [hw1]
      exact alookup_aset_self w.cache digest b1
    rcases second hcache1 with ⟨hs1, hs2⟩
    refine ⟨hs1, hs2, fun _ => ⟨?_, hcache1⟩⟩
    rw [hw1]
  · by_cases hb0 : b0.bytes = []
    · rw [if_pos hb0] at h1
      rcases get_blob_fetch_ok src origin digest w w1 b1 h1 with ⟨hb1, hw1⟩
      have hcache1 : alookup w1.cache digest = some b1 := by
        rw [hw1]
        exact alookup_aset_self w.cache digest b1
      rcases second hcache1 with ⟨hs1, hs2⟩
      exact ⟨hs1, hs2, fun hnone => absurd hnone (by simp)⟩
    · rw [if_neg hb0] at h1
      have hfst := congrArg Prod.fst h1
      have hsnd := congrArg Prod.snd h1
      simp only at hfst hsnd
      have hb1 : b1 = b0 := (Except.ok.inj hfst).symm
      have hw1 : w1 = w := hsnd.symm
      have hcache1 : alookup w1.cache digest = some b1 := by
        rw [hw1, hcache, hb1]
      rcases second hcache1 with ⟨hs1, hs2⟩
      exact ⟨hs1, hs2, fun hnone => absurd hnone (by simp)⟩

/-- C9 (amended, witness): fetching an uncached digest whose response
is a 500 raises the HTTP error after exactly one retrieval; and two
fetches of a one-byte blob from a fresh instance return equal bytes,
issue no second retrieval, and record exactly one request with the
stored body. -/
theorem claim_c9_amended_witness :
    FlatpakStaticSource.get_blob ⟨"http://h/F"⟩ serverErrorOrigin "sha256:ab"
      World.empty =
      (.error (.httpError 500), ⟨[], ["http://h/F/blobs/sha256/ab"], []⟩) ∧
    (⟨[7], none⟩ : BlobVal) = ⟨[7], none⟩ ∧
    ((⟨[7], none⟩ : BlobVal).bytes ≠ [] →
      (⟨[("sha256:ab", ⟨[7], none⟩)], ["http://h/F/blobs/sha256/ab"], []⟩ : World) =
        ⟨[("sha256:ab", ⟨[7], none⟩)], ["http://h/F/blobs/sha256/ab"], []⟩) ∧
    (alookup World.empty.cache "sha256:ab" = none →
      (⟨[("sha256:ab", ⟨[7], none⟩)], ["http://h/F/blobs/sha256/ab"], []⟩ : World).reqs =
        World.empty.reqs ++ [blob_url "http://h/F" "sha256:ab"] ∧
      alookup
        (⟨[("sha256:ab", ⟨[7], none⟩)], ["http://h/F/blobs/sha256/ab"], []⟩ : World).cache
        "sha256:ab" = some ⟨[7], none⟩) :=
  ⟨(claim_c9_amended ⟨"http://h/F"⟩ serverErrorOrigin "sha256:ab" World.empty
      World.empty World.empty ⟨[], none⟩ ⟨[], none⟩ 500).1 rfl rfl rfl rfl,
   (claim_c9_amended ⟨"http://h/F"⟩ smallBlobOrigin "sha256:ab" World.empty
      ⟨[("sha256:ab", ⟨[7], none⟩)], ["http://h/F/blobs/sha256/ab"], []⟩
      ⟨[("sha256:ab", ⟨[7], none⟩)], ["http://h/F/blobs/sha256/ab"], []⟩
      ⟨[7], none⟩ ⟨[7], none⟩ 0).2 rfl rfl⟩

/-- A cache-coherent fetch: `_get_blob` returns the origin's body for
the requested digest and preserves coherence of the cache with the
origin. -/
theorem get_blob_coherent (src : FlatpakStaticSource) (origin : StaticOrigin)
    (digest : String) (w w2 : World) (b : BlobVal)
    (hcoh : ∀ d bv, alookup w.cache d = some bv →
      bv = (origin.fetch (blob_url src.url d)).content)
    (h : FlatpakStaticSource.get_blob src origin digest w = (.ok b, w2)) :
    b = (origin.fetch (blob_url src.url digest)).content ∧
    (∀ d bv, alookup w2.cache d = some bv →
      bv = (origin.fetch (blob_url src.url d)).content) := by
  have fetch_case : FlatpakStaticSource.get_blob_fetch src origin digest w = (.ok b, w2) →
      b = (origin.fetch (blob_url src.url digest)).content ∧
      (∀ d bv, alookup w2.cache d = some bv →
        bv = (origin.fetch (blob_url src.url d)).content) := by
    intro hf
    rcases get_blob_fetch_ok src origin digest w w2 b hf with ⟨hb, hw⟩
    refine ⟨hb, ?_⟩
    intro d bv hd
    rw [hw] at hd
    by_cases hdd : d = digest
    · subst hdd
      rw [alookup_aset_self] at hd
      rw [← Option.some.inj hd, hb]
    · rw [alookup_aset_ne _ _ _ _ hdd] at hd
      exact hcoh d bv hd
  unfold FlatpakStaticSource.get_blob at h
  rcases hcache : alookup w.cache digest with _ | b0 <;> simp only [hcache] at h
  · exact fetch_case h
  · by_cases hb0 : b0.bytes = []
    · rw [if_pos hb0] at h
      exact fetch_case h
    · rw [if_neg hb0] at h
      have hfst := congrArg Prod.fst h
      have hsnd := congrArg Prod.snd h
      simp only at hfst hsnd
      constructor
      · rw [← Except.ok.inj hfst]
        exact hcoh digest b0 hcache
      · rw [← hsnd]
        exact hcoh
/-- `_get_json` preserves cache coherence. -/
theorem get_json_coherent (src : FlatpakStaticSource) (origin : StaticOrigin)
    (digest : String) (w w2 : World) (doc : JsonDoc)
    (hcoh : ∀ d bv, alookup w.cache d = some bv →
      bv = (origin.fetch (blob_url src.url d)).content)
    (h : FlatpakStaticSource.get_json src origin digest w = (.ok doc, w2)) :
    ∀ d bv, alookup w2.cache d = some bv →
      bv = (origin.fetch (blob_url src.url d)).content := by
  unfold FlatpakStaticSource.get_json at h
  rcases hgb : FlatpakStaticSource.get_blob src origin digest w with ⟨r, w3⟩
  rcases r with e | b <;> simp only [hgb] at h
  · exact absurd (congrArg Prod.fst h) (by simp)
  · rcases hj : b.json with _ | doc2 <;> simp only [hj] at h
    · exact absurd (congrArg Prod.fst h) (by simp)
    · have hsnd := congrArg Prod.snd h
      simp only at hsnd
      rw [← hsnd]
      exact (get_blob_coherent src origin digest w w3 b hcoh hgb).2

/-- The catalog loader preserves cache coherence. -/
theorem images_from_entries_coherent (src : FlatpakStaticSource) (origin : StaticOrigin)
    (entries : List IndexEntry) :
    ∀ (acc imgs : List StaticSourceImage) (w w2 : World),
    (∀ d bv, alookup w.cache d = some bv →
      bv = (origin.fetch (blob_url src.url d)).content) →
    FlatpakStaticSource.images_from_entries src origin entries acc w = (.ok imgs, w2) →
    ∀ d bv, alookup w2.cache d = some bv →
      bv = (origin.fetch (blob_url src.url d)).content := by
  induction entries with
  | nil =>
    intro acc imgs w w2 hcoh h
    simp only [FlatpakStaticSource.images_from_entries] at h
    have hsnd := congrArg Prod.snd h
    simp only at hsnd
    rw [← hsnd]
    exact hcoh
  | cons e rest ih =>
    intro acc imgs w w2 hcoh h
    by_cases hmt : e.mediaType = some manifest_media_type
    · simp only [FlatpakStaticSource.images_from_entries] at h
      rw [if_pos hmt] at h
      rcases hj1 : FlatpakStaticSource.get_json src origin e.digest w with ⟨r1, wa⟩
      rcases r1 with e1 | mdoc <;> simp only [hj1] at h
      · exact absurd (congrArg Prod.fst h) (by simp)
      · have hcoh1 := get_json_coherent src origin e.digest w wa mdoc hcoh hj1
        rcases hm : mdoc.asManifest with e2 | m <;> simp only [hm] at h
        · exact absurd (congrArg Prod.fst h) (by simp)
        · rcases hj2 : FlatpakStaticSource.get_json src origin m.configDigest wa
            with ⟨r2, wb⟩
          rcases r2 with e3 | cdoc <;> simp only [hj2] at h
          · exact absurd (congrArg Prod.fst h) (by simp)
          · have hcoh2 := get_json_coherent src origin m.configDigest wa wb cdoc hcoh1 hj2
            rcases hcl : cdoc.asConfigLabels with e4 | ls <;> simp only [hcl] at h
            · exact absurd (congrArg Prod.fst h) (by simp)
            · exact ih _ imgs wb w2 hcoh2 h
    · simp only [FlatpakStaticSource.images_from_entries] at h
      rw [if_neg hmt] at h
      exact ih acc imgs w w2 hcoh h

/-- The catalog load from a fresh instance leaves a cache coherent
with the origin. -/
theorem images_compute_coherent (src : FlatpakStaticSource) (origin : StaticOrigin)
    (imgs : List StaticSourceImage) (w0 : World)
    (h : FlatpakStaticSource.images_compute src origin World.empty = (.ok imgs, w0)) :
    ∀ d bv, alookup w0.cache d = some bv →
      bv = (origin.fetch (blob_url src.url d)).content := by
  unfold FlatpakStaticSource.images_compute at h
  by_cases h404 : (origin.fetch (src.url ++ "/index.json")).status = 404
  · rw [if_pos h404] at h
    exact absurd (congrArg Prod.fst h) (by simp)
  · rw [if_neg h404] at h
    by_cases hbad : statusBad (origin.fetch (src.url ++ "/index.json")).status = true
    · rw [if_pos hbad] at h
      exact absurd (congrArg Prod.fst h) (by simp)
    · rw [if_neg hbad] at h
      rcases hj : (origin.fetch (src.url ++ "/index.json")).content.json
        with _ | doc <;> simp only [hj] at h
      · exact absurd (congrArg Prod.fst h) (by simp)
      · refine images_from_entries_coherent src origin doc.manifests [] imgs _ w0 ?_ h
        intro d bv hd
        simp [World.empty, alookup] at hd

/-- A successful non-streaming `_download_blob` returns the byte count
of the origin's blob body and preserves cache coherence. -/
theorem download_blob_nostream_spec (src : FlatpakStaticSource) (origin : StaticOrigin)
    (dst digest : String) (w w2 : World) (n : Nat)
    (hcoh : ∀ d bv, alookup w.cache d = some bv →
      bv = (origin.fetch (blob_url src.url d)).content)
    (h : FlatpakStaticSource.download_blob_nostream src origin dst digest w = (.ok n, w2)) :
    n = ((origin.fetch (blob_url src.url digest)).content.bytes).length ∧
    (∀ d bv, alookup w2.cache d = some bv →
      bv = (origin.fetch (blob_url src.url d)).content) := by
  unfold FlatpakStaticSource.download_blob_nostream at h
  by_cases hpre : pyStartsWith digest "sha256:" = true
  · rw [if_pos hpre] at h
    rcases hgb : FlatpakStaticSource.get_blob src origin digest w with ⟨r, w3⟩
    rcases r with e | b <;> simp only [hgb] at h
    · exact absurd (congrArg Prod.fst h) (by simp)
    · rcases get_blob_coherent src origin digest w w3 b hcoh hgb with ⟨hb, hcoh3⟩
      have hfst := congrArg Prod.fst h
      have hsnd := congrArg Prod.snd h
      simp only at hfst hsnd
      refine ⟨by rw [← Except.ok.inj hfst, hb], ?_⟩
      intro d bv hd
      rw [← hsnd] at hd
      exact hcoh3 d bv hd
  · rw [if_neg hpre] at h
    exact absurd (congrArg Prod.fst h) (by simp)

/-- A streaming `_download_blob` never touches the cache. -/
theorem download_blob_stream_cache (src : FlatpakStaticSource) (origin : StaticOrigin)
    (dst digest : String) (w w2 : World) (n : Nat)
    (h : FlatpakStaticSource.download_blob_stream src origin dst digest w = (.ok n, w2)) :
    w2.cache = w.cache := by
  unfold FlatpakStaticSource.download_blob_stream at h
  by_cases hpre : pyStartsWith digest "sha256:" = true
  · rw [if_pos hpre] at h
    by_cases hbad : statusBad (origin.fetch (blob_url src.url digest)).status = true
    · rw [if_pos hbad] at h
      exact absurd (congrArg Prod.fst h) (by simp)
    · rw [if_neg hbad] at h
      have hsnd := congrArg Prod.snd h
      simp only at hsnd
      rw [← hsnd]
  · rw [if_neg hpre] at h
    exact absurd (congrArg Prod.fst h) (by simp)

/-- The layer loop never touches the cache. -/
theorem download_layers_cache (src : FlatpakStaticSource) (origin : StaticOrigin)
    (dst : String) (layers : List LayerEntry) :
    ∀ (w w2 : World) (u : Unit),
    FlatpakStaticSource.download_layers src origin dst layers w = (.ok u, w2) →
    w2.cache = w.cache := by
  induction layers with
  | nil =>
    intro w w2 u h
    have hsnd := congrArg Prod.snd h
    simp only [FlatpakStaticSource.download_layers] at hsnd
    rw [← hsnd]
  | cons layer rest ih =>
    intro w w2 u h
    simp only [FlatpakStaticSource.download_layers] at h
    rcases hs : FlatpakStaticSource.download_blob_stream src origin dst layer.digest w
      with ⟨r, wa⟩
    rcases r with e | n <;> simp only [hs] at h
    · exact absurd (congrArg Prod.fst h) (by simp)
    · rw [ih wa w2 u h, download_blob_stream_cache src origin dst layer.digest w wa n hs]

/-- The image loop of `download` emits, in catalog order, exactly one
index entry per catalog image in the expanded set, carrying the
manifest media type, the image digest and the byte count of the
manifest blob at the origin. -/
theorem download_images_loop_spec (src : FlatpakStaticSource) (origin : StaticOrigin)
    (dst : String) (expanded : List String) (imgs : List StaticSourceImage) :
    ∀ (entries entriesF : List (String × String × Nat)) (w w2 : World),
    (∀ d bv, alookup w.cache d = some bv →
      bv = (origin.fetch (blob_url src.url d)).content) →
    FlatpakStaticSource.download_images_loop src origin dst expanded imgs entries w =
      (.ok entriesF, w2) →
    entriesF = entries ++ (imgs.filter (fun i => image_included expanded i.labels)).map
      (fun i => (manifest_media_type, i.digest,
        ((origin.fetch (blob_url src.url i.digest)).content.bytes).length)) := by
  induction imgs with
  | nil =>
    intro entries entriesF w w2 _ h
    have hfst := congrArg Prod.fst h
    simp only [FlatpakStaticSource.download_images_loop] at hfst
    simp [← Except.ok.inj hfst]
  | cons img rest ih =>
    intro entries entriesF w w2 hcoh h
    simp only [FlatpakStaticSource.download_images_loop] at h
    rcases href : SourceImage.ref img.labels with _ | r <;> simp only [href] at h
    · have hninc : ¬ (image_included expanded img.labels = true) := by
        simp [image_included, href]
      rw [List.filter_cons, if_neg hninc]
      exact ih entries entriesF w w2 hcoh h
    · by_cases hmem : memStr r expanded = true
      · rw [if_pos hmem] at h
        rcases hn1 : FlatpakStaticSource.download_blob_nostream src origin dst img.digest w
          with ⟨r1, wa⟩
        rcases r1 with e1 | mlen <;> simp only [hn1] at h
        · exact absurd (congrArg Prod.fst h) (by simp)
        · rcases download_blob_nostream_spec src origin dst img.digest w wa mlen hcoh hn1
            with ⟨hmlen, hcoh1⟩
          rcases hn2 : FlatpakStaticSource.download_blob_nostream src origin dst
              img.manifest.configDigest wa with ⟨r2, wb⟩
          rcases r2 with e2 | clen <;> simp only [hn2] at h
          · exact absurd (congrArg Prod.fst h) (by simp)
          · rcases download_blob_nostream_spec src origin dst img.manifest.configDigest
                wa wb clen hcoh1 hn2 with ⟨_, hcoh2⟩
            rcases hlay : FlatpakStaticSource.download_layers src origin dst
                img.manifest.layers wb with ⟨r3, wc⟩
            rcases r3 with e3 | u <;> simp only [hlay] at h
            · exact absurd (congrArg Prod.fst h) (by simp)
            · have hcoh3 : ∀ d bv, alookup wc.cache d = some bv →
                  bv = (origin.fetch (blob_url src.url d)).content := by
                rw [download_layers_cache src origin dst img.manifest.layers wb wc u hlay]
                exact hcoh2
              have hrec := ih (entries ++ [(manifest_media_type, img.digest, mlen)])
                entriesF wc w2 hcoh3 h
              have hinc : image_included expanded img.labels = true := by
                simp [image_included, href, hmem]
              rw [List.filter_cons, if_pos hinc]
              simp only [List.map_cons]
              rw [hrec, hmlen]
              simp
      · rw [if_neg hmem] at h
        have hninc : ¬ (image_included expanded img.labels = true) := by
          simp only [image_included, href]
          exact hmem
        rw [List.filter_cons, if_neg hninc]
        exact ih entries entriesF w w2 hcoh h

/-- C5: for a local static source, `download` returns `oci:` plus the
local base path without fetching or writing anything; for a remote
source, a successful `download` returns `oci:<dst>/Flatpaks` and its
final two writes are the `index.json` document containing exactly one
manifest entry (media type, digest, manifest byte size) per catalog
image in the expanded set, in catalog order, and the `oci-layout`
version marker. -/
theorem claim_c5 (src : FlatpakStaticSource) (origin : StaticOrigin) (arch : String)
    (refs : List String) (dst ret : String) (w w0 : World)
    (imgs : List StaticSourceImage) (expanded : List String) :
    (src.is_local = true →
      FlatpakStaticSource.download src origin arch refs dst World.empty =
        (.ok ("oci:" ++ pyRemoveStart src.url "file://"), World.empty)) ∧
    (src.is_local = false →
      FlatpakStaticSource.download src origin arch refs dst World.empty = (.ok ret, w) →
      FlatpakStaticSource.images_compute src origin World.empty = (.ok imgs, w0) →
      FlatpakSource.expand_refs arch refs (imgs.map StaticSourceImage.labels) =
        .ok expanded →
      ret = "oci:" ++ os_path_join dst "Flatpaks" ∧
      ∃ bw, w.writes = bw ++
        [(os_path_join (os_path_join dst "Flatpaks") "index.json",
          .indexFile ((imgs.filter (fun i => image_included expanded i.labels)).map
            (fun i => (manifest_media_type, i.digest,
              ((origin.fetch (blob_url src.url i.digest)).content.bytes).length)))),
         (os_path_join (os_path_join dst "Flatpaks") "oci-layout", .layoutFile)]) := by
  constructor
  · intro hl
    unfold FlatpakStaticSource.download
    rw [if_pos hl]
  · intro hl hdl himgs hexp
    have hnl : ¬ (src.is_local = true) := by
      rw [hl]
      simp
    unfold FlatpakSource.expand_refs at hexp
    rcases hc : FlatpakSource.canon_refs arch refs with e | canon <;>
      simp only [hc] at hexp
    · exact Except.noConfusion hexp
    · unfold FlatpakStaticSource.download at hdl
      rw [if_neg hnl] at hdl
      simp only [hc, himgs, hexp] at hdl
      rcases hloop : FlatpakStaticSource.download_images_loop src origin dst expanded
          imgs [] w0 with ⟨rl, wl⟩
      rcases rl with e | entriesF <;> simp only [hloop] at hdl
      · exact absurd (congrArg Prod.fst hdl) (by simp)
      · have hfst := congrArg Prod.fst hdl
        have hsnd := congrArg Prod.snd hdl
        simp only at hfst hsnd
        have hentries := download_images_loop_spec src origin dst expanded imgs
          [] entriesF w0 wl (images_compute_coherent src origin imgs w0 himgs) hloop
        refine ⟨(Except.ok.inj hfst).symm, wl.writes, ?_⟩
        rw [← hsnd]
        simp only [List.nil_append] at hentries
        rw [hentries]

/-- C5 (witness): downloading one requested image from a tiny remote
layout stages its manifest, config and layer blobs, ends with the
one-entry `index.json` (manifest byte size 3) and the `oci-layout`
marker, and returns `oci:/tmp/dl/Flatpaks`; a local source returns
`oci:` plus its path with nothing fetched or written. -/
theorem claim_c5_witness :
    "oci:/tmp/dl/Flatpaks" = "oci:" ++ os_path_join "/tmp/dl" "Flatpaks" ∧
    (∃ bw,
      ([("/tmp/dl/blobs/sha256/m1", FileContent.fileBytes [1, 2, 3]),
        ("/tmp/dl/blobs/sha256/c1", FileContent.fileBytes [9]),
        ("/tmp/dl/blobs/sha256/l1", FileContent.fileBytes [1, 1, 1, 1, 1]),
        ("/tmp/dl/Flatpaks/index.json",
          FileContent.indexFile [(manifest_media_type, "sha256:m1", 3)]),
        ("/tmp/dl/Flatpaks/oci-layout", FileContent.layoutFile)] :
        List (String × FileContent)) = bw ++
        [("/tmp/dl/Flatpaks/index.json",
          FileContent.indexFile [(manifest_media_type, "sha256:m1", 3)]),
         ("/tmp/dl/Flatpaks/oci-layout", FileContent.layoutFile)]) ∧
    FlatpakStaticSource.download ⟨"file:///srv/repo/Flatpaks"⟩ tinyOrigin "x86_64" []
      "/x" World.empty = (.ok "oci:/srv/repo/Flatpaks", World.empty) := by
  have h := (claim_c5 ⟨"http://h/Flatpaks"⟩ tinyOrigin "x86_64" ["app/A/x86_64/s"]
      "/tmp/dl" ("oci:" ++ os_path_join "/tmp/dl" "Flatpaks") _ _ _
      ["app/A/x86_64/s"]).2 rfl rfl rfl rfl
  exact ⟨h.1, h.2,
    (claim_c5 ⟨"file:///srv/repo/Flatpaks"⟩ tinyOrigin "x86_64" [] "/x" ""
      World.empty World.empty [] []).1 rfl⟩

end Flatpak
